import Mathlib

/-!
# A shallow embedding of the OpenEXR scanline output file (ImfOutputFile.cpp)

This file models the scanline write pipeline of `OutputFile`:
frame-buffer binding (`setFrameBuffer`), the chunk assembly task
(`LineBufferTask` constructor and `execute`), the chunk record writer
(`writePixelData`), the drain loop of `writePixels`, and the fast copy
path (`copyPixels`).

The embedding instantiates the pipeline at `numThreads = 0`: the line
buffer pool then has size `max (1, 2*numThreads) = 1`, and the global
thread pool executes every submitted task synchronously at submission
(this is exactly what IlmThread's pool does with zero worker threads).
In that instantiation the pipeline is deterministic, all semaphore
waits succeed immediately, and each drain iteration reads the line
buffer that the task submitted just before it has filled, so the model
needs no scheduler.  External capabilities that are out of scope for
the repository (the compressor, the pixel marshalling helpers
`copyFromFrameBuffer` / `fillChannelWithZeroes`, the native-to-Xdr byte
conversion `convertInPlace`, and the peer file's raw chunk reader) are
parameters of the model, collected in `TaskOracle`.

C++ `int` division truncates toward zero, which is `Int.tdiv` in Lean;
the model uses `Int.tdiv` wherever the source divides signed integers.
-/

namespace ImfOut

/-- `LineOrder` from ImfLineOrder (`RANDOM_Y` is not applicable to scanline files). -/
inductive LineOrder
  | INCREASING_Y
  | DECREASING_Y
deriving DecidableEq, Repr

/-- `PixelType` from ImfPixelType. -/
inductive PixelType
  | UINT
  | HALF
  | FLOAT
deriving DecidableEq, Repr

/-- `Compressor::Format`: the data format the compressor wants its input in. -/
inductive Format
  | NATIVE
  | XDR
deriving DecidableEq, Repr

/-- A channel as declared in the header's channel list: pixel type and subsampling. -/
structure Channel where
  type : PixelType
  xSampling : Int
  ySampling : Int
deriving DecidableEq, Repr

/-- A caller-supplied frame-buffer slice (ImfFrameBuffer's `Slice`).  The base
address is an abstract integer: the pipeline model never dereferences it. -/
structure Slice where
  type : PixelType
  base : Int
  xStride : Nat
  yStride : Nat
  xSampling : Int
  ySampling : Int
deriving DecidableEq, Repr

/-- `OutSliceInfo` (ImfOutputFile.cpp lines 58-89): per-channel info about how
to read the frame buffer, with `zero = true` for channels absent from it. -/
structure OutSliceInfo where
  type : PixelType
  base : Int
  xStride : Nat
  yStride : Nat
  xSampling : Int
  ySampling : Int
  zero : Bool
deriving DecidableEq, Repr

/-- The per-slot `LineBuffer` (lines 91-131).  `payload` models the
`dataPtr`/`dataSize` view (either the raw buffer or the compressor's scratch);
the full byte contents of the partially assembled buffer are abstracted, since
the marshalling helpers that fill it are external capabilities. -/
structure LineBuffer where
  payload : List Nat
  minY : Int
  maxY : Int
  scanLineMin : Int
  scanLineMax : Int
  partiallyFull : Bool
  hasException : Bool
  exception : String
deriving DecidableEq, Repr

/-- The error taxonomy of the modelled operations.  The first group mirrors
exceptions the source throws; `undefinedBehavior` marks states in which the
source's gather loop `for (y = yStart; y != yStop; y += dy)` would never hit
its stop value (undefined behavior on the real machine); `outOfFuel` marks a
drain loop that fails to reach its stop index within the bound the model
provides (the source would spin writing bogus chunks forever). -/
inductive Err
  | noFrameBuffer
  | rangeExceeded
  | ioError (msg : String)
  | fbPixelType (ch : String)
  | fbSampling (ch : String)
  | copyTiled
  | copyDataWindow
  | copyLineOrder
  | copyCompression
  | copyChannels
  | copyAlreadyData
  | undefinedBehavior
  | outOfFuel
deriving DecidableEq, Repr

/-- The immutable configuration of one `OutputFile`: the fields of
`OutputFile::Data` that `initialize` derives from the header and that no
operation mutates afterwards. -/
structure Cfg where
  minX : Int
  maxX : Int
  minY : Int
  maxY : Int
  lineOrder : LineOrder
  /-- `linesInBuffer`: scanlines per chunk, fixed by the compression scheme. -/
  lib : Int
  multiPart : Bool
  partNumber : Int
  compressionKind : Nat
  channels : List (String × Channel)
  format : Format
  /-- whether `newCompressor` returned a compressor (false for NO_COMPRESSION). -/
  hasCompressor : Bool
deriving Repr

/-- The mutable state of one `OutputFile`: cursor, slice table, offset table,
the single line buffer of the `numThreads = 0` pool, and the output stream
(`stream` is the byte list written so far, so `tellp = stream.length`;
`currentPosition` is `OutputStreamMutex::currentPosition`, the cached write
position with `0` meaning unknown). -/
structure Mut where
  csl : Int
  missing : Int
  slices : List OutSliceInfo
  frameBuffer : List (String × Slice)
  lineOffsets : Int → Nat
  buf : LineBuffer
  stream : List Nat
  currentPosition : Nat

/-- The external capabilities consumed by the pipeline, indexed by chunk
number where the source hands the capability per-chunk data:
`fail k` injects the failure (if any) that gathering or compressing chunk `k`
raises, `rawBytes k` is the assembled raw byte image of chunk `k`,
`compress k` is the compressor capability, `toXdr` is the in-place
native-to-wire-order conversion `convertToXdr` performs via `convertInPlace`,
and `rawChunk y` is the peer reader `in.rawPixelData` used by `copyPixels`. -/
structure TaskOracle where
  fail : Int → Option String
  rawBytes : Int → List Nat
  compress : Int → List Nat → List Nat
  toXdr : List Nat → List Nat
  rawChunk : Int → List Nat

/-- `lineBuffers.size () = max (1, 2 * numThreads)` with `numThreads = 0`. -/
def poolSize : Int := 1

/-- `Xdr::write<StreamIO>` of a 4-byte integer: the little-endian bytes of the
value reduced mod 2^32. -/
def enc32 (v : Int) : List Nat :=
  let u := (v % 4294967296).toNat
  [u % 256, u / 256 % 256, u / 65536 % 256, u / 16777216 % 256]

/-- Modelled from the spec: `lineBufferMinY` (declared in ImfMisc.h, whose
implementation is not part of this repository slice) returns the first
scanline of the chunk containing `y`; per spec section 4.2 a chunk with index
`i` spans `[minY + i*linesInBuffer, ...]`, and the chunk index of `y` is
`(y - minY) / linesInBuffer`. -/
def lineBufferMinY (y minY linesInLineBuffer : Int) : Int :=
  minY + ((y - minY).tdiv linesInLineBuffer) * linesInLineBuffer

/-- The chunk index of scanline `y`: `(y - minY) / linesInBuffer` with C++
truncating division, as computed by `writePixelData` (line 247) and
`writePixels` (line 1004). -/
def chunkOf (cfg : Cfg) (y : Int) : Int :=
  (y - cfg.minY).tdiv cfg.lib

/-- `writePixelData` (lines 227-275): record the pre-write stream position in
the offset-table slot of the chunk containing `currentScanLine`, then write
the chunk record: part number (multi-part files only), the chunk's minimum y,
the payload size, and the payload bytes; finally update the cached write
position. -/
def writePixelData (cfg : Cfg) (st : Mut) (lineBufferMinY : Int)
    (pixelData : List Nat) (pixelDataSize : Nat) : Mut :=
  let currentPosition :=
    if st.currentPosition = 0 then st.stream.length else st.currentPosition
  let idx := chunkOf cfg st.csl
  { st with
    lineOffsets := fun i => if i = idx then currentPosition else st.lineOffsets i
    stream := st.stream
      ++ (if cfg.multiPart then enc32 cfg.partNumber else [])
      ++ enc32 lineBufferMinY
      ++ enc32 (Int.ofNat pixelDataSize)
      ++ pixelData.take pixelDataSize
    currentPosition :=
      currentPosition + 4 + 4 + pixelDataSize + (if cfg.multiPart then 4 else 0) }

/-- The compression tail of `LineBufferTask::execute` (lines 552-594): if the
compressor shrinks the data, use the compressed view; otherwise keep the raw
bytes, first converting them in place to Xdr byte order when the working
format was the machine-native one.  Returns the `(dataPtr, dataSize)` view
that `writePixelData` will write. -/
def compressLineBuffer (format : Format)
    (compressor : Option (List Nat → Int → List Nat))
    (toXdr : List Nat → List Nat) (raw : List Nat) (lineBufferMinY : Int) :
    List Nat × Nat :=
  match compressor with
  | none => (raw, raw.length)
  | some compress =>
    let comp := compress raw lineBufferMinY
    if comp.length < raw.length then (comp, comp.length)
    else if format = Format.NATIVE then (toXdr raw, raw.length)
    else (raw, raw.length)

/-- `LineBufferTask::LineBufferTask` (lines 386-418): after acquiring the
slot, initialize its scanline span and mark it partially full unless it is
already mid-assembly, then clamp the requested scanline range to the span. -/
def mkLineBufferTask (cfg : Cfg) (lb : LineBuffer)
    (number scanLineMin scanLineMax : Int) : LineBuffer :=
  let lb :=
    if lb.partiallyFull then lb
    else
      let m := cfg.minY + number * cfg.lib
      { lb with
        minY := m
        maxY := min (m + cfg.lib - 1) cfg.maxY
        partiallyFull := true }
  { lb with
    scanLineMin := max lb.minY scanLineMin
    scanLineMax := min lb.maxY scanLineMax }

/-- The catch blocks of `LineBufferTask::execute` (lines 598-613): record the
failure in the slot only if no failure is recorded there yet. -/
def storeException (lb : LineBuffer) (e : String) : LineBuffer :=
  if lb.hasException then lb
  else { lb with hasException := true, exception := e }

/-- `LineBufferTask::execute` (lines 429-614).  The gather loop iterates `y`
from one end of the clamped range to one past the other (direction given by
the line order); afterwards, if `y` still lies inside the buffer's span the
chunk is incomplete and the task returns with `partiallyFull` still set,
otherwise it compresses the assembled bytes and clears `partiallyFull`.
Failures in gathering (possible only when at least one line is gathered) or
in compression (possible only on the completing path) are caught and stored
as the slot's sticky first failure.  Returns `none` in two situations that
are undefined behavior in the source: when the C++ loop would run unbounded
(`yStart` already past `yStop` in the travel direction), and when a gathered
scanline lies outside the data window, in which case the source indexes
`offsetInLineBuffer[y - minY]` (a vector with one entry per data-window
scanline) out of bounds. -/
def execTask (O : TaskOracle) (cfg : Cfg) (number : Int) (lb : LineBuffer) :
    Option LineBuffer :=
  if lb.scanLineMin > lb.scanLineMax + 1 then none
  else if lb.scanLineMin ≤ lb.scanLineMax ∧
      (lb.scanLineMin < cfg.minY ∨ cfg.maxY < lb.scanLineMax) then none
  else
    let y := if cfg.lineOrder = LineOrder.INCREASING_Y then lb.scanLineMax + 1
             else lb.scanLineMin - 1
    if lb.minY ≤ y ∧ y ≤ lb.maxY then
      if lb.scanLineMin ≤ lb.scanLineMax then
        match O.fail number with
        | some e => some (storeException lb e)
        | none => some lb
      else some lb
    else
      match O.fail number with
      | some e => some (storeException lb e)
      | none =>
        some { lb with
          payload := (compressLineBuffer cfg.format
            (if cfg.hasCompressor then some (fun r _my => O.compress number r)
             else none)
            O.toXdr (O.rawBytes number) lb.minY).1
          partiallyFull := false }

/-- Construct and synchronously execute one `LineBufferTask` (what
`ThreadPool::addGlobalTask` does with zero worker threads). -/
def submitTask (O : TaskOracle) (cfg : Cfg) (st : Mut)
    (number scanLineMin scanLineMax : Int) : Option Mut :=
  match execTask O cfg number
      (mkLineBufferTask cfg st.buf number scanLineMin scanLineMax) with
  | none => none
  | some lb => some { st with buf := lb }

/-- The initial submission loop of `writePixels` (lines 1043-1051 and
1070-1078): submit `count` tasks for chunk numbers `base, base + step, ...`. -/
def submitSeq (O : TaskOracle) (cfg : Cfg) (st : Mut)
    (base step scanLineMin scanLineMax : Int) : Nat → Option Mut
  | 0 => some st
  | Nat.succ c =>
    match submitTask O cfg st base scanLineMin scanLineMax with
    | none => none
    | some st1 => submitSeq O cfg st1 (base + step) step scanLineMin scanLineMax c

/-- How one run of the drain loop of `writePixels` ends: the early return
when the line buffer is only partially full, the `break` at the end of the
requested range, or a thrown error. -/
inductive DrainExit
  | partialReturn
  | done
  | fail (e : Err)
deriving DecidableEq, Repr

/-- The drain loop of `writePixels` (lines 1085-1177), with the pool-size-1
buffer.  Each iteration: fail if no scanlines remain; read the next buffer to
be written; account its clamped line count; return early if it is still
partially full; otherwise write it, advance the cursor, stop at the end of
the range, and submit the next compression task if any chunks remain.  The
fuel argument bounds the iterations; running out models the source spinning
past its stop index. -/
def drain (O : TaskOracle) (cfg : Cfg) :
    Nat → Mut → Int → Int → Int → Int → Int → Int → Mut × DrainExit
  | 0, st, _, _, _, _, _, _ => (st, DrainExit.fail Err.outOfFuel)
  | Nat.succ fuel, st, nextWrite, nextCompress, stop, step, scanLineMin, scanLineMax =>
    if st.missing ≤ 0 then (st, DrainExit.fail Err.rangeExceeded)
    else
      let lb := st.buf
      let numLines := lb.scanLineMax - lb.scanLineMin + 1
      let st := { st with missing := st.missing - numLines }
      if lb.partiallyFull then
        ({ st with csl := st.csl + step * numLines }, DrainExit.partialReturn)
      else
        let st := writePixelData cfg st lb.minY lb.payload lb.payload.length
        let nextWrite := nextWrite + step
        let st := { st with csl := st.csl + step * numLines }
        if nextWrite = stop then (st, DrainExit.done)
        else if nextCompress = stop then
          drain O cfg fuel st nextWrite nextCompress stop step scanLineMin scanLineMax
        else
          match submitTask O cfg st nextCompress scanLineMin scanLineMax with
          | none => (st, DrainExit.fail Err.undefinedBehavior)
          | some st2 =>
            drain O cfg fuel st2 nextWrite (nextCompress + step) stop step
              scanLineMin scanLineMax

/-- The epilogue of `writePixels` (lines 1199-1211), reached only when the
drain loop ran to the end of its range: scan every line buffer of the pool
for a stored exception, clear all exception flags, and re-raise the first
stored exception as an I/O error. -/
def exceptionScan (st : Mut) : Mut × Option Err :=
  let lb := st.buf
  let st1 := { st with buf := { lb with hasException := false } }
  if lb.hasException then (st1, some (Err.ioError lb.exception)) else (st1, none)

/-- Map a drain exit to the result of `writePixels`: a partial-buffer early
return is a successful call (and skips the exception scan), an error
propagates, and a completed drain runs the exception scan. -/
def finishWrite : Mut × DrainExit → Mut × Option Err
  | (st, DrainExit.partialReturn) => (st, none)
  | (st, DrainExit.fail e) => (st, some e)
  | (st, DrainExit.done) => exceptionScan st

/-- `OutputFile::writePixels` (lines 986-1222) at pool size 1: reject a call
with no bound slice table; compute the chunk range that intersects the
requested scanlines; submit the initial task batch; run the drain loop; then
handle stored worker exceptions. -/
def writePixels (O : TaskOracle) (cfg : Cfg) (st : Mut) (numScanLines : Int) :
    Mut × Option Err :=
  if st.slices.length = 0 then (st, some Err.noFrameBuffer)
  else
    let first := chunkOf cfg st.csl
    if cfg.lineOrder = LineOrder.INCREASING_Y then
      let last := chunkOf cfg (st.csl + (numScanLines - 1))
      let scanLineMin := st.csl
      let scanLineMax := st.csl + numScanLines - 1
      let numTasks := max (min poolSize (last - first + 1)) 1
      match submitSeq O cfg st first 1 scanLineMin scanLineMax numTasks.toNat with
      | none => (st, some Err.undefinedBehavior)
      | some st1 =>
        finishWrite (drain O cfg ((last + 1 - first).natAbs + 1) st1 first
          (first + numTasks) (last + 1) 1 scanLineMin scanLineMax)
    else
      let last := chunkOf cfg (st.csl - (numScanLines - 1))
      let scanLineMax := st.csl
      let scanLineMin := st.csl - numScanLines + 1
      let numTasks := max (min poolSize (first - last + 1)) 1
      match submitSeq O cfg st first (-1) scanLineMin scanLineMax numTasks.toNat with
      | none => (st, some Err.undefinedBehavior)
      | some st1 =>
        finishWrite (drain O cfg ((last - 1 - first).natAbs + 1) st1 first
          (first - numTasks) (last - 1) (-1) scanLineMin scanLineMax)

/-- The header of the source `InputFile` as far as `copyPixels` consults it. -/
structure InputHeader where
  tiled : Bool
  minX : Int
  maxX : Int
  minY : Int
  maxY : Int
  lineOrder : LineOrder
  compressionKind : Nat
  channels : List (String × Channel)
deriving Repr

/-- The copy loop of `copyPixels` (lines 1334-1354): while scanlines remain,
read the raw chunk containing the cursor from the peer and write it through
`writePixelData`, then advance the cursor and the remaining count by a full
chunk stride.  The fuel bound is `missing.toNat`, which suffices whenever
`linesInBuffer` is at least 1. -/
def copyPixelsLoop (O : TaskOracle) (cfg : Cfg) : Nat → Mut → Mut × Option Err
  | 0, st => if st.missing > 0 then (st, some Err.outOfFuel) else (st, none)
  | Nat.succ fuel, st =>
    if st.missing > 0 then
      let pixelData := O.rawChunk st.csl
      let st := writePixelData cfg st (lineBufferMinY st.csl cfg.minY cfg.lib)
        pixelData pixelData.length
      let st := { st with
        csl := st.csl +
          (if cfg.lineOrder = LineOrder.INCREASING_Y then cfg.lib else -cfg.lib)
        missing := st.missing - cfg.lib }
      copyPixelsLoop O cfg fuel st
    else (st, none)

/-- `OutputFile::copyPixels` (lines 1233-1355): check that the source file is
not tiled and that the two headers agree on data window, line order,
compression and channel list, check that no pixel data has been written to
this file yet, and only then run the copy loop. -/
def copyPixels (O : TaskOracle) (cfg : Cfg) (st : Mut) (inHdr : InputHeader) :
    Mut × Option Err :=
  if inHdr.tiled then (st, some Err.copyTiled)
  else if ¬ (cfg.minX = inHdr.minX ∧ cfg.minY = inHdr.minY ∧
             cfg.maxX = inHdr.maxX ∧ cfg.maxY = inHdr.maxY) then
    (st, some Err.copyDataWindow)
  else if ¬ (cfg.lineOrder = inHdr.lineOrder) then (st, some Err.copyLineOrder)
  else if ¬ (cfg.compressionKind = inHdr.compressionKind) then
    (st, some Err.copyCompression)
  else if ¬ (cfg.channels = inHdr.channels) then (st, some Err.copyChannels)
  else if ¬ (st.missing = cfg.maxY - cfg.minY + 1) then
    (st, some Err.copyAlreadyData)
  else copyPixelsLoop O cfg st.missing.toNat st

/-- The validation loop of `setFrameBuffer` (lines 886-923): for every channel
declared in the header that is present in the frame buffer, the pixel type
and both subsampling factors must match exactly; the first offending channel
determines the error. -/
def checkFrameBuffer (channels : List (String × Channel))
    (frameBuffer : List (String × Slice)) : Option Err :=
  channels.findSome? fun c =>
    match frameBuffer.lookup c.1 with
    | none => none
    | some s =>
      if ¬ (c.2.type = s.type) then some (Err.fbPixelType c.1)
      else if ¬ (c.2.xSampling = s.xSampling ∧ c.2.ySampling = s.ySampling) then
        some (Err.fbSampling c.1)
      else none

/-- The slice-table construction of `setFrameBuffer` (lines 929-967): a header
channel absent from the frame buffer becomes a zero-fill slice carrying the
channel's own type and subsampling; a present channel takes the caller's
slice data. -/
def buildSlices (channels : List (String × Channel))
    (frameBuffer : List (String × Slice)) : List OutSliceInfo :=
  channels.map fun c =>
    match frameBuffer.lookup c.1 with
    | none =>
      { type := c.2.type, base := 0, xStride := 0, yStride := 0,
        xSampling := c.2.xSampling, ySampling := c.2.ySampling, zero := true }
    | some s =>
      { type := s.type, base := s.base, xStride := s.xStride,
        yStride := s.yStride, xSampling := s.xSampling,
        ySampling := s.ySampling, zero := false }

/-- `OutputFile::setFrameBuffer` (lines 875-975): validate the frame buffer
against the header's channel list, and only if every present channel is
compatible replace the stored frame buffer and slice table. -/
def setFrameBuffer (cfg : Cfg) (st : Mut)
    (frameBuffer : List (String × Slice)) : Mut × Option Err :=
  match checkFrameBuffer cfg.channels frameBuffer with
  | some e => (st, some e)
  | none =>
    ({ st with
       frameBuffer := frameBuffer
       slices := buildSlices cfg.channels frameBuffer }, none)

/-- The state `OutputFile::initialize` (lines 768-815) establishes: the cursor
at the first scanline in file order, the full scanline count missing, no
slice table, an all-zero offset table, and a fresh line buffer; `headerBytes`
stands for the magic number, header and offset-table placeholder the
constructor has already written to the stream, and the cached write position
starts at the sentinel 0. -/
def initialMut (cfg : Cfg) (headerBytes : List Nat) : Mut :=
  { csl := if cfg.lineOrder = LineOrder.INCREASING_Y then cfg.minY else cfg.maxY
    missing := cfg.maxY - cfg.minY + 1
    slices := []
    frameBuffer := []
    lineOffsets := fun _ => 0
    buf := { payload := [], minY := 0, maxY := 0, scanLineMin := 0,
             scanLineMax := 0, partiallyFull := false, hasException := false,
             exception := "" }
    stream := headerBytes
    currentPosition := 0 }

/-! ## Concrete fixtures used by counterexamples and witnesses -/

/-- An oracle with no worker failures and a compressor that never shrinks its
input. -/
def oracleNoFail : TaskOracle :=
  { fail := fun _ => none
    rawBytes := fun k => [k.toNat, k.toNat + 1]
    compress := fun _ r => r ++ [9]
    toXdr := fun r => r.map (· + 100)
    rawChunk := fun y => [y.toNat, 7] }

/-- A data window 6 scanlines high (Y 0..5) with 4 scanlines per chunk,
increasing line order: the height is not a multiple of the chunk size. -/
def cfgH6 : Cfg :=
  { minX := 0, maxX := 0, minY := 0, maxY := 5
    lineOrder := LineOrder.INCREASING_Y, lib := 4, multiPart := false
    partNumber := -1, compressionKind := 2
    channels := [("R", { type := PixelType.HALF, xSampling := 1, ySampling := 1 })]
    format := Format.XDR, hasCompressor := true }

/-- One frame-buffer slice binding channel R compatibly with `cfgH6`. -/
def fbR : List (String × Slice) :=
  [("R", { type := PixelType.HALF, base := 1000, xStride := 2, yStride := 4,
           xSampling := 1, ySampling := 1 })]

/-- The height-6 file right after construction and frame-buffer binding. -/
def stH6 : Mut := (setFrameBuffer cfgH6 (initialMut cfgH6 [1, 2, 3]) fbR).1

/-- An input file whose header is identical to `cfgH6`. -/
def inHdrH6 : InputHeader :=
  { tiled := false, minX := 0, maxX := 0, minY := 0, maxY := 5
    lineOrder := LineOrder.INCREASING_Y, compressionKind := 2
    channels := [("R", { type := PixelType.HALF, xSampling := 1, ySampling := 1 })] }

/-- A data window 8 scanlines high (Y 0..7), 4 scanlines per chunk,
increasing line order. -/
def cfgH8 : Cfg :=
  { cfgH6 with maxY := 7 }

/-- The height-8 file right after construction and frame-buffer binding. -/
def stH8 : Mut := (setFrameBuffer cfgH8 (initialMut cfgH8 []) fbR).1

/-- An oracle whose chunk-0 assembly task fails. -/
def oracleFail0 : TaskOracle :=
  { oracleNoFail with fail := fun k => if k = 0 then some "boom" else none }

/-- The 6-scanline window of `cfgH6` in decreasing line order. -/
def cfgH6D : Cfg :=
  { cfgH6 with lineOrder := LineOrder.DECREASING_Y }

/-- The decreasing-order height-6 file right after construction and
frame-buffer binding. -/
def stH6D : Mut := (setFrameBuffer cfgH6D (initialMut cfgH6D [1, 2, 3]) fbR).1

/-! ## Derived definitions: chunk spans and reachable-state invariants -/

/-- First scanline of chunk `k` (spec section 4.2 and the source's
`LineBufferTask` constructor). -/
def spanMin (cfg : Cfg) (k : Int) : Int :=
  cfg.minY + k * cfg.lib

/-- Last scanline of chunk `k`, clamped to the data window. -/
def spanMax (cfg : Cfg) (k : Int) : Int :=
  min (spanMin cfg k + cfg.lib - 1) cfg.maxY

/-- No worker task fails (gathering and compression always succeed). -/
def FailFree (O : TaskOracle) : Prop :=
  ∀ k, O.fail k = none

/-- The invariant of states reachable through successful calls in which no
worker task fails.  The cursor stays inside (or one step past the travel end
of) the data window, `missingScanLines` always equals the number of
scanlines the cursor has yet to pass, the single line buffer holds no stored
exception, and a partially assembled buffer is exactly the cursor's chunk
with the cursor inside its span. -/
def Good (cfg : Cfg) (st : Mut) : Prop :=
  1 ≤ cfg.lib ∧ cfg.minY ≤ cfg.maxY ∧
  st.buf.hasException = false ∧
  (cfg.lineOrder = LineOrder.INCREASING_Y →
    cfg.minY ≤ st.csl ∧ st.csl ≤ cfg.maxY + 1 ∧
    st.missing = cfg.maxY + 1 - st.csl) ∧
  (cfg.lineOrder = LineOrder.DECREASING_Y →
    cfg.minY - 1 ≤ st.csl ∧ st.csl ≤ cfg.maxY ∧
    st.missing = st.csl - cfg.minY + 1) ∧
  (st.buf.partiallyFull = true →
    st.buf.minY = spanMin cfg (chunkOf cfg st.csl) ∧
    st.buf.maxY = spanMax cfg (chunkOf cfg st.csl) ∧
    st.buf.minY ≤ st.csl ∧ st.csl ≤ st.buf.maxY)

instance (cfg : Cfg) (st : Mut) : Decidable (Good cfg st) := by
  unfold Good
  infer_instance

/-- The state after the write part of one completing drain iteration:
scanlines accounted, chunk record written, cursor advanced. -/
def drainWriteStep (cfg : Cfg) (st : Mut) (step : Int) : Mut :=
  let numLines := st.buf.scanLineMax - st.buf.scanLineMin + 1
  { writePixelData cfg { st with missing := st.missing - numLines }
      st.buf.minY st.buf.payload st.buf.payload.length with
    csl := st.csl + step * numLines }

/-- The drain-entry invariant for increasing line order: the cursor is in
range with `missing` tracking it, the slot was just tasked for the cursor's
chunk `nw` with the call range `[sMin, sMax]` clamped into it, and the slot
is partially full exactly when the range stops short of the chunk's end.
The slot facts are needed only while scanlines remain. -/
structure DrainInvI (cfg : Cfg) (st : Mut) (nw sMin sMax : Int) : Prop where
  lib1 : 1 ≤ cfg.lib
  wnd : cfg.minY ≤ cfg.maxY
  cslLo : cfg.minY ≤ st.csl
  cslHi : st.csl ≤ cfg.maxY + 1
  mEq : st.missing = cfg.maxY + 1 - st.csl
  noExc : st.buf.hasException = false
  hsMin : sMin ≤ st.csl
  hsMax : st.csl - 1 ≤ sMax
  slot : st.csl ≤ cfg.maxY →
    nw = chunkOf cfg st.csl ∧
    st.buf.minY = spanMin cfg nw ∧
    st.buf.maxY = spanMax cfg nw ∧
    st.buf.scanLineMin = st.csl ∧
    st.buf.scanLineMax = min (spanMax cfg nw) sMax ∧
    (st.buf.partiallyFull = true ↔ sMax < spanMax cfg nw)

/-- The drain-entry invariant for decreasing line order. -/
structure DrainInvD (cfg : Cfg) (st : Mut) (nw sMin sMax : Int) : Prop where
  lib1 : 1 ≤ cfg.lib
  wnd : cfg.minY ≤ cfg.maxY
  cslLo : cfg.minY - 1 ≤ st.csl
  cslHi : st.csl ≤ cfg.maxY
  mEq : st.missing = st.csl - cfg.minY + 1
  noExc : st.buf.hasException = false
  hsMin : sMin ≤ st.csl + 1
  hsMax : st.csl ≤ sMax
  slot : cfg.minY ≤ st.csl →
    nw = chunkOf cfg st.csl ∧
    st.buf.minY = spanMin cfg nw ∧
    st.buf.maxY = spanMax cfg nw ∧
    st.buf.scanLineMax = st.csl ∧
    st.buf.scanLineMin = max (spanMin cfg nw) sMin ∧
    (st.buf.partiallyFull = true ↔ spanMin cfg nw < sMin)

/-- One iteration of the `copyPixels` loop body. -/
def copyStep (O : TaskOracle) (cfg : Cfg) (st : Mut) : Mut :=
  let pixelData := O.rawChunk st.csl
  let st1 := writePixelData cfg st (lineBufferMinY st.csl cfg.minY cfg.lib)
    pixelData pixelData.length
  { st1 with
    csl := st1.csl +
      (if cfg.lineOrder = LineOrder.INCREASING_Y then cfg.lib else -cfg.lib)
    missing := st1.missing - cfg.lib }

/-! ## C8: line-buffer task span initialization -/

/-- C8: when a `LineBufferTask` acquires a slot that is not mid-assembly
(`partiallyFull = false`), it initializes the slot's span to
`[minY + number*linesInBuffer, min (minY + number*linesInBuffer + linesInBuffer - 1) maxY]`
and sets `partiallyFull`; when the slot is already partially full the
existing span is kept (and `partiallyFull` stays set). -/
theorem C8_taskSpanInit (cfg : Cfg) (lb : LineBuffer) (number sMin sMax : Int) :
    ((mkLineBufferTask cfg lb number sMin sMax).minY,
     (mkLineBufferTask cfg lb number sMin sMax).maxY,
     (mkLineBufferTask cfg lb number sMin sMax).partiallyFull) =
    (if lb.partiallyFull then (lb.minY, lb.maxY, true)
     else (cfg.minY + number * cfg.lib,
           min (cfg.minY + number * cfg.lib + cfg.lib - 1) cfg.maxY, true)) := by
  by_cases h : lb.partiallyFull <;> simp [mkLineBufferTask, h]

/-! ## C9: the on-disk chunk record -/

/-- C9: one chunk record is, in order, a 4-byte part index exactly when the
file is multi-part, the 4-byte chunk minimum y, a 4-byte payload length, and
exactly payload-length payload bytes; the offset-table slot of the chunk
containing the cursor receives the stream position at which the record
begins.  The hypothesis on the cached position says the cache is either the
unknown sentinel or accurate, which `writePixelData` maintains itself. -/
theorem C9_chunkRecord (cfg : Cfg) (st : Mut) (lbMinY : Int)
    (pixelData : List Nat) (pixelDataSize : Nat)
    (hcache : st.currentPosition = 0 ∨ st.currentPosition = st.stream.length)
    (hlen : pixelData.length = pixelDataSize) :
    (writePixelData cfg st lbMinY pixelData pixelDataSize).stream =
      st.stream ++ ((if cfg.multiPart then enc32 cfg.partNumber else [])
        ++ enc32 lbMinY ++ enc32 (Int.ofNat pixelDataSize) ++ pixelData) ∧
    (enc32 cfg.partNumber).length = 4 ∧ (enc32 lbMinY).length = 4 ∧
    (enc32 (Int.ofNat pixelDataSize)).length = 4 ∧
    (writePixelData cfg st lbMinY pixelData pixelDataSize).lineOffsets
      (chunkOf cfg st.csl) = st.stream.length := by
  have htake : pixelData.take pixelDataSize = pixelData := by
    rw [← hlen]; exact List.take_length ..
  have hcp : (if st.currentPosition = 0 then st.stream.length
      else st.currentPosition) = st.stream.length := by
    rcases hcache with h | h <;> simp [h]
  refine ⟨?_, rfl, rfl, rfl, ?_⟩
  · simp [writePixelData, htake]
  · simp [writePixelData, hcp]

/-- Witness for C9 at a concrete state. -/
theorem C9_chunkRecord_witness :
    (initialMut cfgH6 [1, 2, 3]).currentPosition = 0 ∧
    ([5, 6] : List Nat).length = 2 ∧
    (writePixelData cfgH6 (initialMut cfgH6 [1, 2, 3]) 0 [5, 6] 2).stream =
      [1, 2, 3] ++ ([] ++ enc32 0 ++ enc32 2 ++ [5, 6]) ∧
    (writePixelData cfgH6 (initialMut cfgH6 [1, 2, 3]) 0 [5, 6] 2).lineOffsets
      (chunkOf cfgH6 (initialMut cfgH6 [1, 2, 3]).csl) = 3 := by
  have h := C9_chunkRecord cfgH6 (initialMut cfgH6 [1, 2, 3]) 0 [5, 6] 2
    (Or.inl rfl) rfl
  exact ⟨rfl, rfl, by simpa [cfgH6, initialMut] using h.1, by simpa using h.2.2.2.2⟩

/-! ## C5: compression fallback policy -/

/-- C5: the compressed view is used only when the compressed size is strictly
smaller than the raw size; otherwise the raw bytes and the raw size are kept,
and when the working format was the machine-native one the raw buffer is
first converted in place to wire (Xdr) byte order. -/
theorem C5_compressionFallback (format : Format)
    (compress : List Nat → Int → List Nat) (toXdr : List Nat → List Nat)
    (raw : List Nat) (lbMinY : Int) :
    ((compress raw lbMinY).length < raw.length →
      compressLineBuffer format (some compress) toXdr raw lbMinY =
        (compress raw lbMinY, (compress raw lbMinY).length)) ∧
    (raw.length ≤ (compress raw lbMinY).length →
      (compressLineBuffer format (some compress) toXdr raw lbMinY).2 =
        raw.length ∧
      (compressLineBuffer format (some compress) toXdr raw lbMinY).1 =
        (if format = Format.NATIVE then toXdr raw else raw)) := by
  constructor
  · intro h
    simp [compressLineBuffer, h]
  · intro h
    have h2 : ¬ (compress raw lbMinY).length < raw.length := not_lt.mpr h
    by_cases hf : format = Format.NATIVE <;>
      simp [compressLineBuffer, h2, hf]

/-- Witness for C5: a compressor output of the same length as the raw input
is rejected and, in native format, the raw bytes get converted. -/
theorem C5_compressionFallback_witness :
    (([2, 3] : List Nat).length ≤ (([4, 5] : List Nat)).length) ∧
    (compressLineBuffer Format.NATIVE (some (fun _ _ => [4, 5]))
        (fun r => r.map (· + 100)) [2, 3] 0).1 = [102, 103] ∧
    (compressLineBuffer Format.NATIVE (some (fun _ _ => [4, 5]))
        (fun r => r.map (· + 100)) [2, 3] 0).2 = 2 := by
  have h := (C5_compressionFallback Format.NATIVE (fun _ _ => [4, 5])
    (fun r => r.map (· + 100)) [2, 3] 0).2 (by decide)
  exact ⟨by decide, by simpa using h.2, h.1⟩

/-! ## C6: copyPixels precondition checks -/

/-- C6: if any `copyPixels` precondition fails (source tiled, data-window,
line-order, compression or channel-list mismatch, or pixel data already
written to the destination), the call returns the entry state unchanged with
one of the distinct mismatch errors: nothing is transferred. -/
theorem C6_copyPreconditions (O : TaskOracle) (cfg : Cfg) (st : Mut)
    (inHdr : InputHeader)
    (h : inHdr.tiled = true ∨
      ¬(cfg.minX = inHdr.minX ∧ cfg.minY = inHdr.minY ∧
        cfg.maxX = inHdr.maxX ∧ cfg.maxY = inHdr.maxY) ∨
      ¬(cfg.lineOrder = inHdr.lineOrder) ∨
      ¬(cfg.compressionKind = inHdr.compressionKind) ∨
      ¬(cfg.channels = inHdr.channels) ∨
      ¬(st.missing = cfg.maxY - cfg.minY + 1)) :
    (copyPixels O cfg st inHdr).1 = st ∧
    ∃ e, (copyPixels O cfg st inHdr).2 = some e ∧
      (e = Err.copyTiled ∨ e = Err.copyDataWindow ∨ e = Err.copyLineOrder ∨
       e = Err.copyCompression ∨ e = Err.copyChannels ∨
       e = Err.copyAlreadyData) := by
  by_cases h1 : inHdr.tiled = true
  · refine ⟨?_, Err.copyTiled, ?_, by simp⟩ <;> simp [copyPixels, h1]
  · by_cases h2 : cfg.minX = inHdr.minX ∧ cfg.minY = inHdr.minY ∧
        cfg.maxX = inHdr.maxX ∧ cfg.maxY = inHdr.maxY
    · by_cases h3 : cfg.lineOrder = inHdr.lineOrder
      · by_cases h4 : cfg.compressionKind = inHdr.compressionKind
        · by_cases h5 : cfg.channels = inHdr.channels
          · by_cases h6 : st.missing = cfg.maxY - cfg.minY + 1
            · exact absurd h (by simp [h1, h2, h3, h4, h5, h6])
            · have h6i : ¬st.missing = inHdr.maxY - inHdr.minY + 1 := by
                rw [← h2.2.2.2, ← h2.2.1]; exact h6
              refine ⟨?_, Err.copyAlreadyData, ?_, by simp⟩ <;>
                simp [copyPixels, h1, h2, h3, h4, h5, h6i]
          · refine ⟨?_, Err.copyChannels, ?_, by simp⟩ <;>
              simp [copyPixels, h1, h2, h3, h4, h5]
        · refine ⟨?_, Err.copyCompression, ?_, by simp⟩ <;>
            simp [copyPixels, h1, h2, h3, h4]
      · refine ⟨?_, Err.copyLineOrder, ?_, by simp⟩ <;>
          simp [copyPixels, h1, h2, h3]
    · refine ⟨?_, Err.copyDataWindow, ?_, by simp⟩ <;> simp [copyPixels, h1, h2]

/-- Witness for C6: copying into a file that already holds pixel data fails
with the already-written error and changes nothing. -/
theorem C6_copyPreconditions_witness :
    ¬((writePixels oracleNoFail cfgH6 stH6 6).1.missing =
        cfgH6.maxY - cfgH6.minY + 1) ∧
    (copyPixels oracleNoFail cfgH6 (writePixels oracleNoFail cfgH6 stH6 6).1
        inHdrH6).1 = (writePixels oracleNoFail cfgH6 stH6 6).1 := by
  have h := C6_copyPreconditions oracleNoFail cfgH6
    (writePixels oracleNoFail cfgH6 stH6 6).1 inHdrH6
    (by right; right; right; right; right; decide)
  exact ⟨by decide, h.1⟩

/-! ## C7: frame-buffer binding validation and slice construction -/

/-- Unfolding `checkFrameBuffer` over the leading header channel. -/
theorem checkFrameBuffer_cons (c : String × Channel) (cs : List (String × Channel))
    (fb : List (String × Slice)) :
    checkFrameBuffer (c :: cs) fb =
      (match fb.lookup c.1 with
       | none => checkFrameBuffer cs fb
       | some s =>
         if ¬(c.2.type = s.type) then some (Err.fbPixelType c.1)
         else if ¬(c.2.xSampling = s.xSampling ∧ c.2.ySampling = s.ySampling) then
           some (Err.fbSampling c.1)
         else checkFrameBuffer cs fb) := by
  simp only [checkFrameBuffer, List.findSome?_cons]
  cases fb.lookup c.1 with
  | none => rfl
  | some s =>
    by_cases ht : c.2.type = s.type
    · by_cases hs : c.2.xSampling = s.xSampling ∧ c.2.ySampling = s.ySampling <;>
        simp [ht, hs]
    · simp [ht]

/-- `checkFrameBuffer` passes exactly when every bound channel matches the
header's type and subsampling. -/
theorem checkFrameBuffer_eq_none (channels : List (String × Channel))
    (fb : List (String × Slice)) :
    checkFrameBuffer channels fb = none ↔
      ∀ c ∈ channels, ∀ s, fb.lookup c.1 = some s →
        c.2.type = s.type ∧ c.2.xSampling = s.xSampling ∧
        c.2.ySampling = s.ySampling := by
  rw [checkFrameBuffer, List.findSome?_eq_none_iff]
  constructor
  · intro h c hc s hs
    have := h c hc
    rw [hs] at this
    by_cases ht : c.2.type = s.type
    · by_cases hsam : c.2.xSampling = s.xSampling ∧ c.2.ySampling = s.ySampling
      · exact ⟨ht, hsam.1, hsam.2⟩
      · simp [ht, hsam] at this
    · simp [ht] at this
  · intro h c hc
    cases hl : fb.lookup c.1 with
    | none => simp
    | some s =>
      have hcs := h c hc s hl
      simp [hcs.1, hcs.2.1, hcs.2.2]

/-- A failing `checkFrameBuffer` reports a pixel-type or subsampling
mismatch for one of the header channels. -/
theorem checkFrameBuffer_eq_some (channels : List (String × Channel))
    (fb : List (String × Slice)) (e : Err)
    (h : checkFrameBuffer channels fb = some e) :
    ∃ ch, e = Err.fbPixelType ch ∨ e = Err.fbSampling ch := by
  rw [checkFrameBuffer] at h
  obtain ⟨a, _, ha⟩ := List.exists_of_findSome?_eq_some h
  cases hl : fb.lookup a.1 with
  | none => rw [hl] at ha; simp at ha
  | some s =>
    rw [hl] at ha
    by_cases ht : a.2.type = s.type
    · by_cases hsam : a.2.xSampling = s.xSampling ∧ a.2.ySampling = s.ySampling
      · simp [ht, hsam] at ha
      · simp only [ht, hsam, not_true_eq_false, if_false, not_false_eq_true,
          if_true, Option.some.injEq] at ha
        exact ⟨a.1, Or.inr ha.symm⟩
    · simp only [ht, not_false_eq_true, if_true, Option.some.injEq] at ha
      exact ⟨a.1, Or.inl ha.symm⟩

/-- C7: when the frame buffer is bound, every header channel absent from the
frame buffer becomes a zero-fill slice (keeping the channel's declared type
and subsampling), and every present channel must match the header's pixel
type and x/y subsampling exactly; otherwise the binding fails with a
configuration-mismatch error and leaves the stored state (in particular the
slice table) unchanged. -/
theorem C7_setFrameBufferBinding (cfg : Cfg) (st : Mut)
    (fb : List (String × Slice)) :
    ((∃ c ∈ cfg.channels, ∃ s, fb.lookup c.1 = some s ∧
        ¬(c.2.type = s.type ∧ c.2.xSampling = s.xSampling ∧
          c.2.ySampling = s.ySampling)) →
      (setFrameBuffer cfg st fb).1 = st ∧
      ∃ ch, (setFrameBuffer cfg st fb).2 = some (Err.fbPixelType ch) ∨
            (setFrameBuffer cfg st fb).2 = some (Err.fbSampling ch)) ∧
    ((∀ c ∈ cfg.channels, ∀ s, fb.lookup c.1 = some s →
        c.2.type = s.type ∧ c.2.xSampling = s.xSampling ∧
        c.2.ySampling = s.ySampling) →
      (setFrameBuffer cfg st fb).2 = none ∧
      List.Forall₂ (fun (c : String × Channel) (o : OutSliceInfo) =>
          (fb.lookup c.1 = none →
            o.zero = true ∧ o.type = c.2.type ∧
            o.xSampling = c.2.xSampling ∧ o.ySampling = c.2.ySampling) ∧
          (∀ s, fb.lookup c.1 = some s →
            o.zero = false ∧ o.type = s.type ∧ o.base = s.base ∧
            o.xStride = s.xStride ∧ o.yStride = s.yStride ∧
            o.xSampling = s.xSampling ∧ o.ySampling = s.ySampling))
        cfg.channels (setFrameBuffer cfg st fb).1.slices) := by
  constructor
  · rintro ⟨c, hc, s, hs, hbad⟩
    cases hcf : checkFrameBuffer cfg.channels fb with
    | none =>
      exact absurd ((checkFrameBuffer_eq_none cfg.channels fb).mp hcf c hc s hs)
        hbad
    | some e =>
      obtain ⟨ch, hch⟩ := checkFrameBuffer_eq_some cfg.channels fb e hcf
      refine ⟨by simp [setFrameBuffer, hcf], ch, ?_⟩
      rcases hch with h | h
      · left; simp [setFrameBuffer, hcf, h]
      · right; simp [setFrameBuffer, hcf, h]
  · intro hok
    have hnone : checkFrameBuffer cfg.channels fb = none :=
      (checkFrameBuffer_eq_none cfg.channels fb).mpr hok
    refine ⟨by simp [setFrameBuffer, hnone], ?_⟩
    have hsl : (setFrameBuffer cfg st fb).1.slices = buildSlices cfg.channels fb := by
      simp [setFrameBuffer, hnone]
    rw [hsl, buildSlices, List.forall₂_map_right_iff]
    refine List.forall₂_same.mpr ?_
    intro c hc
    cases hl : fb.lookup c.1 with
    | none => simp [hl]
    | some s => simp [hl]

/-- Witness for C7: binding a compatible single-channel frame buffer
succeeds, and a frame buffer with the wrong pixel type is rejected without
touching the state. -/
theorem C7_setFrameBufferBinding_witness :
    (setFrameBuffer cfgH6 (initialMut cfgH6 [1, 2, 3]) fbR).2 = none ∧
    (setFrameBuffer cfgH6 (initialMut cfgH6 [1, 2, 3])
        [("R", { type := PixelType.FLOAT, base := 0, xStride := 4, yStride := 4,
                 xSampling := 1, ySampling := 1 })]).1 =
      initialMut cfgH6 [1, 2, 3] := by
  constructor
  · exact ((C7_setFrameBufferBinding cfgH6 (initialMut cfgH6 [1, 2, 3]) fbR).2
      (by decide)).1
  · exact ((C7_setFrameBufferBinding cfgH6 (initialMut cfgH6 [1, 2, 3])
      [("R", { type := PixelType.FLOAT, base := 0, xStride := 4, yStride := 4,
               xSampling := 1, ySampling := 1 })]).1
      ⟨("R", { type := PixelType.HALF, xSampling := 1, ySampling := 1 }),
        by decide,
        { type := PixelType.FLOAT, base := 0, xStride := 4, yStride := 4,
          xSampling := 1, ySampling := 1 },
        by decide, by decide⟩).1

/-! ## C10: frame-buffer entries naming no header channel are ignored -/

/-- C10: a frame-buffer entry whose name matches no declared channel is
silently ignored by the binding: the outcome (error or success) and the
built slice table are identical with and without the entry. -/
theorem C10_unknownChannelIgnored (cfg : Cfg) (st : Mut)
    (fb : List (String × Slice)) (name : String) (s : Slice)
    (h : ∀ c ∈ cfg.channels, c.1 ≠ name) :
    (setFrameBuffer cfg st ((name, s) :: fb)).2 =
      (setFrameBuffer cfg st fb).2 ∧
    (setFrameBuffer cfg st ((name, s) :: fb)).1.slices =
      (setFrameBuffer cfg st fb).1.slices := by
  have key : ∀ channels : List (String × Channel),
      (∀ c ∈ channels, c.1 ≠ name) →
      checkFrameBuffer channels ((name, s) :: fb) = checkFrameBuffer channels fb ∧
      buildSlices channels ((name, s) :: fb) = buildSlices channels fb := by
    intro channels
    induction channels with
    | nil => exact fun _ => ⟨rfl, rfl⟩
    | cons c cs ih =>
      intro hh
      have hl : List.lookup c.1 ((name, s) :: fb) = List.lookup c.1 fb := by
        rw [List.lookup_cons]
        simp [beq_eq_false_iff_ne.mpr (hh c (List.mem_cons_self c cs))]
      have ihr := ih (fun d hd => hh d (List.mem_cons_of_mem c hd))
      constructor
      · rw [checkFrameBuffer_cons, checkFrameBuffer_cons, hl, ihr.1]
      · simp only [buildSlices, List.map_cons] at ihr ⊢
        rw [hl]
        exact congrArg _ ihr.2
  have hk := key cfg.channels h
  unfold setFrameBuffer
  rw [hk.1]
  cases checkFrameBuffer cfg.channels fb <;> simp [hk.2]

/-! ## Counterexamples to the claims about cursor accounting and failures -/

/-- C1 counterexample: on a file whose height (6) is not a multiple of
`linesInBuffer` (4), one successful `copyPixels` call covers the whole data
window (the cursor ends two full chunks past the start), yet
`missingScanLines` ends at -2: it goes negative instead of reaching exactly
zero. -/
theorem C1_counterexample :
    (copyPixels oracleNoFail cfgH6 stH6 inHdrH6).2 = none ∧
    (copyPixels oracleNoFail cfgH6 stH6 inHdrH6).1.missing = -2 ∧
    (copyPixels oracleNoFail cfgH6 stH6 inHdrH6).1.csl = 8 := by
  decide

/-- C2 counterexample: requesting 7 scanlines when only 6 remain (height-6
file, 4-line chunks) does not fail at all: the call succeeds, because the
requested range's final chunk index still equals the data window's final
chunk index. -/
theorem C2_counterexample :
    stH6.missing = 6 ∧
    (writePixels oracleNoFail cfgH6 stH6 7).2 = none ∧
    (writePixels oracleNoFail cfgH6 stH6 7).1.missing = 0 := by
  decide

/-- C3 counterexample: after valid calls that write the full data window,
`writePixels 0` is not a no-op: it raises the range error, because the drain
loop checks `missingScanLines <= 0` before looking at the requested count. -/
theorem C3_counterexample :
    (writePixels oracleNoFail cfgH6 stH6 6).2 = none ∧
    (writePixels oracleNoFail cfgH6 stH6 6).1.missing = 0 ∧
    (writePixels oracleNoFail cfgH6 (writePixels oracleNoFail cfgH6 stH6 6).1
      0).2 = some Err.rangeExceeded := by
  decide

/-- C4 counterexample: when the chunk-0 assembly task fails, the failing
chunk's buffer stays partially full, so the drain loop takes its early
return: the `writePixels` call returns with no error, the sticky failure
flag is still set (not cleared), and nothing was re-raised — the post-join
scan did not run for this call. -/
theorem C4_counterexample :
    (writePixels oracleFail0 cfgH8 stH8 8).2 = none ∧
    (writePixels oracleFail0 cfgH8 stH8 8).1.buf.hasException = true ∧
    (writePixels oracleFail0 cfgH8 stH8 8).1.buf.exception = "boom" := by
  decide

/-- Witness for C10: an entry named Z (no such channel in the header) added
in front of the R binding changes neither the outcome nor the slices. -/
theorem C10_unknownChannelIgnored_witness :
    (setFrameBuffer cfgH6 (initialMut cfgH6 [1, 2, 3])
        (("Z", { type := PixelType.FLOAT, base := 5, xStride := 4, yStride := 4,
                 xSampling := 1, ySampling := 1 }) :: fbR)).1.slices =
      (setFrameBuffer cfgH6 (initialMut cfgH6 [1, 2, 3]) fbR).1.slices := by
  exact (C10_unknownChannelIgnored cfgH6 (initialMut cfgH6 [1, 2, 3]) fbR "Z"
    { type := PixelType.FLOAT, base := 5, xStride := 4, yStride := 4,
      xSampling := 1, ySampling := 1 } (by decide)).2

/-! ## The write pipeline: drain-loop and call-level characterizations -/

/-- Truncating division agrees with floor division on nonnegative operands:
the chunk of a scanline at or past `minY` sits at or before it. -/
theorem spanMin_chunkOf_le (cfg : Cfg) (y : Int) (hb : 1 ≤ cfg.lib)
    (hy : cfg.minY ≤ y) : spanMin cfg (chunkOf cfg y) ≤ y := by
  rw [spanMin, chunkOf, Int.tdiv_eq_ediv (by omega) (by omega)]
  have h1 := Int.ediv_add_emod (y - cfg.minY) cfg.lib
  have h2 := Int.emod_nonneg (y - cfg.minY) (by omega : cfg.lib ≠ 0)
  have h3 : cfg.lib * ((y - cfg.minY) / cfg.lib) =
      ((y - cfg.minY) / cfg.lib) * cfg.lib := Int.mul_comm ..
  omega

/-- A scanline lies before the end of its own chunk. -/
theorem lt_spanMin_chunkOf_succ (cfg : Cfg) (y : Int) (hb : 1 ≤ cfg.lib)
    (hy : cfg.minY ≤ y) : y < spanMin cfg (chunkOf cfg y) + cfg.lib := by
  rw [spanMin, chunkOf, Int.tdiv_eq_ediv (by omega) (by omega)]
  have h1 := Int.ediv_add_emod (y - cfg.minY) cfg.lib
  have h2 := Int.emod_lt_of_pos (y - cfg.minY) (by omega : 0 < cfg.lib)
  have h3 : cfg.lib * ((y - cfg.minY) / cfg.lib) =
      ((y - cfg.minY) / cfg.lib) * cfg.lib := Int.mul_comm ..
  omega

/-- A scanline inside the span of chunk `k` (with `k` at least 0) belongs to
chunk `k`. -/
theorem chunkOf_eq_of_mem (cfg : Cfg) (k y : Int) (hb : 1 ≤ cfg.lib)
    (hk : 0 ≤ k) (h1 : spanMin cfg k ≤ y)
    (h2 : y < spanMin cfg k + cfg.lib) : chunkOf cfg y = k := by
  rw [spanMin] at h1 h2
  have hky : 0 ≤ y - cfg.minY := by nlinarith
  rw [chunkOf, Int.tdiv_eq_ediv hky (by omega)]
  have h3 : y - cfg.minY = (y - cfg.minY - k * cfg.lib) + k * cfg.lib := by ring
  rw [h3, Int.add_mul_ediv_right _ _ (by omega : cfg.lib ≠ 0)]
  rw [Int.ediv_eq_zero_of_lt (by omega) (by omega)]
  omega

/-- Chunk indices of scanlines at or past `minY` are nonnegative. -/
theorem chunkOf_nonneg (cfg : Cfg) (y : Int) (hb : 1 ≤ cfg.lib)
    (hy : cfg.minY ≤ y) : 0 ≤ chunkOf cfg y := by
  rw [chunkOf]
  exact Int.tdiv_nonneg (by omega) (by omega)

/-- Truncating division is monotone on nonnegative numerators. -/
theorem chunkOf_mono (cfg : Cfg) (a b : Int) (hb : 1 ≤ cfg.lib)
    (ha : cfg.minY ≤ a) (hab : a ≤ b) :
    chunkOf cfg a ≤ chunkOf cfg b := by
  rw [chunkOf, chunkOf, Int.tdiv_eq_ediv (by omega) (by omega),
    Int.tdiv_eq_ediv (by omega) (by omega)]
  exact Int.ediv_le_ediv (by omega) (by omega)

/-- With at least two lines per chunk, the scanline one below `minY` has
chunk index 0: the C++ division truncates toward zero, so `(-1) / lib = 0`. -/
theorem chunkOf_minY_sub_one_of_two_le (cfg : Cfg) (hb : 2 ≤ cfg.lib) :
    chunkOf cfg (cfg.minY - 1) = 0 := by
  rw [chunkOf]
  have h1 : cfg.minY - 1 - cfg.minY = -(1) := by ring
  rw [h1, Int.neg_tdiv, Int.tdiv_eq_ediv (by omega) (by omega),
    Int.ediv_eq_zero_of_lt (by omega) (by omega)]
  ring

/-- With one line per chunk, the scanline one below `minY` has chunk
index -1. -/
theorem chunkOf_minY_sub_one_of_one (cfg : Cfg) (hb : cfg.lib = 1) :
    chunkOf cfg (cfg.minY - 1) = -1 := by
  rw [chunkOf, hb]
  have h1 : cfg.minY - 1 - cfg.minY = -(1) := by ring
  rw [h1, Int.neg_tdiv, Int.tdiv_one]

/-- Chunks of scanlines below `minY` have nonpositive indices. -/
theorem chunkOf_nonpos_of_lt (cfg : Cfg) (y : Int) (hb : 1 ≤ cfg.lib)
    (hy : y < cfg.minY) : chunkOf cfg y ≤ 0 := by
  rw [chunkOf]
  have h1 : y - cfg.minY = -(cfg.minY - y) := by ring
  rw [h1, Int.neg_tdiv]
  have h2 : 0 ≤ (cfg.minY - y).tdiv cfg.lib :=
    Int.tdiv_nonneg (by omega) (by omega)
  omega

/-- Successive chunk spans are `linesInBuffer` apart. -/
theorem spanMin_succ (cfg : Cfg) (k : Int) :
    spanMin cfg (k + 1) = spanMin cfg k + cfg.lib := by
  rw [spanMin, spanMin]; ring

/-- The chunk below `minY - lib` has a negative index. -/
theorem chunkOf_neg_of_lt (cfg : Cfg) (y : Int) (hb : 1 ≤ cfg.lib)
    (hy : y ≤ cfg.minY - cfg.lib) : chunkOf cfg y < 0 := by
  rw [chunkOf]
  have hpos : cfg.lib ≤ cfg.minY - y := by omega
  have hflip : (y - cfg.minY).tdiv cfg.lib = -((cfg.minY - y).tdiv cfg.lib) := by
    have h2 : y - cfg.minY = -(cfg.minY - y) := by ring
    rw [h2, Int.neg_tdiv]
  rw [hflip]
  have h3 : 1 ≤ (cfg.minY - y).tdiv cfg.lib := by
    rw [Int.tdiv_eq_ediv (by omega) (by omega)]
    calc (1 : Int) = cfg.lib / cfg.lib := (Int.ediv_self (by omega)).symm
      _ ≤ (cfg.minY - y) / cfg.lib := Int.ediv_le_ediv (by omega) hpos
  linarith

/-- What submitting one assembly task does in increasing line order, when the
slot is either free or already holds the same chunk `k`: the slot ends up
describing chunk `k` with the requested range clamped to its span, no
exception appears (given a failure-free oracle), and the slot stays
partially full exactly when the requested range stops short of the span's
end.  The side conditions rule out the source's undefined behavior. -/
theorem submitTask_incr (O : TaskOracle) (cfg : Cfg) (st : Mut)
    (k sMin sMax : Int) (hff : FailFree O)
    (hlo : cfg.lineOrder = LineOrder.INCREASING_Y)
    (hlib : 1 ≤ cfg.lib) (hk0 : 0 ≤ k)
    (hslot : st.buf.partiallyFull = false ∨
      (st.buf.minY = spanMin cfg k ∧ st.buf.maxY = spanMax cfg k))
    (h1 : spanMin cfg k ≤ spanMax cfg k + 1)
    (h2 : spanMin cfg k ≤ sMax + 1)
    (h3 : sMin ≤ spanMax cfg k + 1)
    (h4 : sMin ≤ sMax + 1) :
    ∃ lb2, submitTask O cfg st k sMin sMax = some { st with buf := lb2 } ∧
      lb2.minY = spanMin cfg k ∧ lb2.maxY = spanMax cfg k ∧
      lb2.scanLineMin = max (spanMin cfg k) sMin ∧
      lb2.scanLineMax = min (spanMax cfg k) sMax ∧
      lb2.hasException = st.buf.hasException ∧
      lb2.exception = st.buf.exception ∧
      (lb2.partiallyFull = true ↔ sMax < spanMax cfg k) := by
  have hmY : cfg.minY ≤ spanMin cfg k := by
    rw [spanMin]; nlinarith
  have hMle : spanMax cfg k ≤ cfg.maxY := by
    rw [spanMax]; omega
  have hlb1 : mkLineBufferTask cfg st.buf k sMin sMax =
      { st.buf with
        minY := spanMin cfg k
        maxY := spanMax cfg k
        partiallyFull := true
        scanLineMin := max (spanMin cfg k) sMin
        scanLineMax := min (spanMax cfg k) sMax } := by
    rcases hslot with hp | ⟨hm, hM⟩
    · rw [mkLineBufferTask]
      simp only [hp, Bool.false_eq_true, if_false]
      rw [spanMin, spanMax, spanMin]
    · rw [mkLineBufferTask]
      by_cases hp : st.buf.partiallyFull
      · simp only [hp, if_true, hm, hM]
      · simp only [hp, Bool.false_eq_true, if_false]
        rw [spanMin, spanMax, spanMin]
  set lb1 : LineBuffer :=
    { st.buf with
      minY := spanMin cfg k
      maxY := spanMax cfg k
      partiallyFull := true
      scanLineMin := max (spanMin cfg k) sMin
      scanLineMax := min (spanMax cfg k) sMax } with hlb1def
  have hnodiv : ¬ lb1.scanLineMin > lb1.scanLineMax + 1 := by
    simp only [hlb1def]
    omega
  have hnoob : ¬ (lb1.scanLineMin ≤ lb1.scanLineMax ∧
      (lb1.scanLineMin < cfg.minY ∨ cfg.maxY < lb1.scanLineMax)) := by
    simp only [hlb1def]
    omega
  rw [submitTask, hlb1]
  unfold execTask
  rw [if_neg hnodiv, if_neg hnoob, hlo]
  simp only [if_true, reduceIte]
  by_cases hcomp : lb1.minY ≤ lb1.scanLineMax + 1 ∧ lb1.scanLineMax + 1 ≤ lb1.maxY
  · -- the chunk is not complete: the task returns with the slot partially full
    rw [if_pos hcomp]
    have hnonempty : lb1.scanLineMin ≤ lb1.scanLineMax ∨
        ¬ lb1.scanLineMin ≤ lb1.scanLineMax := em _
    have hclip : sMax < spanMax cfg k := by
      simp only [hlb1def] at hcomp
      omega
    rcases hnonempty with hne | hne
    · rw [if_pos hne, hff k]
      exact ⟨lb1, rfl, rfl, rfl, rfl, rfl, rfl, rfl, by simp [hclip]⟩
    · rw [if_neg hne]
      exact ⟨lb1, rfl, rfl, rfl, rfl, rfl, rfl, rfl, by simp [hclip]⟩
  · -- completing: the task compresses and clears partiallyFull
    rw [if_neg hcomp]
    rw [hff k]
    have hfull : ¬ sMax < spanMax cfg k := by
      simp only [hlb1def] at hcomp
      omega
    exact ⟨_, rfl, rfl, rfl, rfl, rfl, rfl, rfl, by simp [hfull]⟩

/-- The decreasing-order twin of `submitTask_incr`: the slot ends up
describing chunk `k`, and stays partially full exactly when the requested
range stops short of the span's bottom end. -/
theorem submitTask_decr (O : TaskOracle) (cfg : Cfg) (st : Mut)
    (k sMin sMax : Int) (hff : FailFree O)
    (hlo : cfg.lineOrder = LineOrder.DECREASING_Y)
    (_hlib : 1 ≤ cfg.lib)
    (hok : cfg.minY ≤ spanMin cfg k ∨
      min (spanMax cfg k) sMax < max (spanMin cfg k) sMin)
    (hslot : st.buf.partiallyFull = false ∨
      (st.buf.minY = spanMin cfg k ∧ st.buf.maxY = spanMax cfg k))
    (h1 : spanMin cfg k ≤ spanMax cfg k + 1)
    (h2 : spanMin cfg k ≤ sMax + 1)
    (h3 : sMin ≤ spanMax cfg k + 1)
    (h4 : sMin ≤ sMax + 1) :
    ∃ lb2, submitTask O cfg st k sMin sMax = some { st with buf := lb2 } ∧
      lb2.minY = spanMin cfg k ∧ lb2.maxY = spanMax cfg k ∧
      lb2.scanLineMin = max (spanMin cfg k) sMin ∧
      lb2.scanLineMax = min (spanMax cfg k) sMax ∧
      lb2.hasException = st.buf.hasException ∧
      lb2.exception = st.buf.exception ∧
      (lb2.partiallyFull = true ↔ spanMin cfg k < sMin) := by
  have hMle : spanMax cfg k ≤ cfg.maxY := by
    rw [spanMax]; omega
  have hlb1 : mkLineBufferTask cfg st.buf k sMin sMax =
      { st.buf with
        minY := spanMin cfg k
        maxY := spanMax cfg k
        partiallyFull := true
        scanLineMin := max (spanMin cfg k) sMin
        scanLineMax := min (spanMax cfg k) sMax } := by
    rcases hslot with hp | ⟨hm, hM⟩
    · rw [mkLineBufferTask]
      simp only [hp, Bool.false_eq_true, if_false]
      rw [spanMin, spanMax, spanMin]
    · rw [mkLineBufferTask]
      by_cases hp : st.buf.partiallyFull
      · simp only [hp, if_true, hm, hM]
      · simp only [hp, Bool.false_eq_true, if_false]
        rw [spanMin, spanMax, spanMin]
  set lb1 : LineBuffer :=
    { st.buf with
      minY := spanMin cfg k
      maxY := spanMax cfg k
      partiallyFull := true
      scanLineMin := max (spanMin cfg k) sMin
      scanLineMax := min (spanMax cfg k) sMax } with hlb1def
  have hnodiv : ¬ lb1.scanLineMin > lb1.scanLineMax + 1 := by
    simp only [hlb1def]
    omega
  have hnoob : ¬ (lb1.scanLineMin ≤ lb1.scanLineMax ∧
      (lb1.scanLineMin < cfg.minY ∨ cfg.maxY < lb1.scanLineMax)) := by
    simp only [hlb1def]
    rcases hok with h | h <;> omega
  rw [submitTask, hlb1]
  unfold execTask
  rw [if_neg hnodiv, if_neg hnoob, hlo]
  simp only [reduceCtorEq, if_false]
  by_cases hcomp : lb1.minY ≤ lb1.scanLineMin - 1 ∧ lb1.scanLineMin - 1 ≤ lb1.maxY
  · rw [if_pos hcomp]
    have hclip : spanMin cfg k < sMin := by
      simp only [hlb1def] at hcomp
      omega
    rcases em (lb1.scanLineMin ≤ lb1.scanLineMax) with hne | hne
    · rw [if_pos hne, hff k]
      exact ⟨lb1, rfl, rfl, rfl, rfl, rfl, rfl, rfl, by simp [hclip]⟩
    · rw [if_neg hne]
      exact ⟨lb1, rfl, rfl, rfl, rfl, rfl, rfl, rfl, by simp [hclip]⟩
  · rw [if_neg hcomp]
    rw [hff k]
    have hfull : ¬ spanMin cfg k < sMin := by
      simp only [hlb1def] at hcomp
      omega
    exact ⟨_, rfl, rfl, rfl, rfl, rfl, rfl, rfl, by simp [hfull]⟩

/-- `writePixelData` leaves the cursor, counters, slot and slice table alone. -/
theorem writePixelData_preserves (cfg : Cfg) (st : Mut) (mY : Int)
    (d : List Nat) (n : Nat) :
    (writePixelData cfg st mY d n).csl = st.csl ∧
    (writePixelData cfg st mY d n).missing = st.missing ∧
    (writePixelData cfg st mY d n).buf = st.buf ∧
    (writePixelData cfg st mY d n).slices = st.slices := by
  refine ⟨rfl, rfl, rfl, rfl⟩

/-- `writePixelData` appends at least the 8 record-header bytes. -/
theorem writePixelData_stream_grows (cfg : Cfg) (st : Mut) (mY : Int)
    (d : List Nat) (n : Nat) :
    st.stream.length + 8 ≤ (writePixelData cfg st mY d n).stream.length := by
  simp only [writePixelData, List.length_append, enc32]
  by_cases hmp : cfg.multiPart <;> simp [hmp] <;> omega

/-- One drain iteration when no scanlines remain: the range error. -/
theorem drain_guard (O : TaskOracle) (cfg : Cfg) (fuel : Nat) (st : Mut)
    (nw nc stop step sMin sMax : Int) (h : st.missing ≤ 0) :
    drain O cfg (Nat.succ fuel) st nw nc stop step sMin sMax =
      (st, DrainExit.fail Err.rangeExceeded) := by
  simp only [drain, if_pos h]

/-- One drain iteration on a partially full buffer: account the clamped
lines, advance the cursor, and return from `writePixels`. -/
theorem drain_early (O : TaskOracle) (cfg : Cfg) (fuel : Nat) (st : Mut)
    (nw nc stop step sMin sMax : Int) (h : ¬ st.missing ≤ 0)
    (hp : st.buf.partiallyFull = true) :
    drain O cfg (Nat.succ fuel) st nw nc stop step sMin sMax =
      ({ st with
         missing := st.missing - (st.buf.scanLineMax - st.buf.scanLineMin + 1)
         csl := st.csl + step * (st.buf.scanLineMax - st.buf.scanLineMin + 1) },
       DrainExit.partialReturn) := by
  simp only [drain, if_neg h, hp, if_true]

/-- `drain_early` with the resulting cursor and count precomputed. -/
theorem drain_early_val (O : TaskOracle) (cfg : Cfg) (fuel : Nat) (st : Mut)
    (nw nc stop step sMin sMax : Int) (h : ¬ st.missing ≤ 0)
    (hp : st.buf.partiallyFull = true) (c2 m2 : Int)
    (hc2 : st.csl + step * (st.buf.scanLineMax - st.buf.scanLineMin + 1) = c2)
    (hm2 : st.missing - (st.buf.scanLineMax - st.buf.scanLineMin + 1) = m2) :
    drain O cfg (Nat.succ fuel) st nw nc stop step sMin sMax =
      ({ st with missing := m2, csl := c2 }, DrainExit.partialReturn) := by
  rw [drain_early O cfg fuel st nw nc stop step sMin sMax h hp, hm2, hc2]

/-- One drain iteration on a completed buffer: write the chunk record,
advance the write index and the cursor, then break, keep draining, or
submit the next task. -/
theorem drain_write (O : TaskOracle) (cfg : Cfg) (fuel : Nat) (st : Mut)
    (nw nc stop step sMin sMax : Int) (h : ¬ st.missing ≤ 0)
    (hp : st.buf.partiallyFull = false) :
    drain O cfg (Nat.succ fuel) st nw nc stop step sMin sMax =
      (if nw + step = stop then (drainWriteStep cfg st step, DrainExit.done)
       else if nc = stop then
         drain O cfg fuel (drainWriteStep cfg st step) (nw + step) nc stop step
           sMin sMax
       else
         match submitTask O cfg (drainWriteStep cfg st step) nc sMin sMax with
         | none => (drainWriteStep cfg st step, DrainExit.fail Err.undefinedBehavior)
         | some st4 =>
           drain O cfg fuel st4 (nw + step) (nc + step) stop step sMin sMax) := by
  simp only [drain, if_neg h, hp, Bool.false_eq_true, if_false, drainWriteStep]
  rfl

/-- Field bookkeeping for `drainWriteStep`. -/
theorem drainWriteStep_fields (cfg : Cfg) (st : Mut) (step : Int) :
    (drainWriteStep cfg st step).csl =
      st.csl + step * (st.buf.scanLineMax - st.buf.scanLineMin + 1) ∧
    (drainWriteStep cfg st step).missing =
      st.missing - (st.buf.scanLineMax - st.buf.scanLineMin + 1) ∧
    (drainWriteStep cfg st step).buf = st.buf ∧
    (drainWriteStep cfg st step).slices = st.slices := by
  refine ⟨rfl, rfl, rfl, rfl⟩

/-- `drainWriteStep` strictly lengthens the stream. -/
theorem drainWriteStep_stream_grows (cfg : Cfg) (st : Mut) (step : Int) :
    st.stream.length + 8 ≤ (drainWriteStep cfg st step).stream.length := by
  simp only [drainWriteStep]
  have h := writePixelData_stream_grows cfg
    { st with missing := st.missing - (st.buf.scanLineMax - st.buf.scanLineMin + 1) }
    st.buf.minY st.buf.payload st.buf.payload.length
  exact h

/-- A task submitted for a chunk whose span begins beyond the clamped range
hits the source's unbounded gather loop: the model reports it as undefined
behavior. -/
theorem submitTask_none_of_div (O : TaskOracle) (cfg : Cfg) (st : Mut)
    (k sMin sMax : Int) (hp : st.buf.partiallyFull = false)
    (hdiv : max (spanMin cfg k) sMin > min (spanMax cfg k) sMax + 1) :
    submitTask O cfg st k sMin sMax = none := by
  have hlb1 : mkLineBufferTask cfg st.buf k sMin sMax =
      { st.buf with
        minY := spanMin cfg k
        maxY := spanMax cfg k
        partiallyFull := true
        scanLineMin := max (spanMin cfg k) sMin
        scanLineMax := min (spanMax cfg k) sMax } := by
    rw [mkLineBufferTask]
    simp only [hp, Bool.false_eq_true, if_false]
    rw [spanMin, spanMax, spanMin]
  rw [submitTask, hlb1]
  unfold execTask
  rw [if_pos hdiv]

/-- Full characterization of the drain loop in increasing line order, from a
drain-entry invariant state.  Outcomes: (A) with no scanlines left the loop
raises the range error untouched; (B) when the requested range's last chunk
exists, the loop succeeds — by partial return or by completing the range —
leaving the cursor right after the requested range clamped to the window,
and writing nothing at all if the entry buffer was still partially full;
(C) when the requested range runs past the last chunk of the window, the
loop errors out (range error or, for a window whose height is not a multiple
of the chunk size, the undefined behavior of the out-of-range task), but
only after writing every remaining chunk of the window. -/
theorem drainI_spec (O : TaskOracle) (cfg : Cfg) (hff : FailFree O)
    (hlo : cfg.lineOrder = LineOrder.INCREASING_Y) :
    ∀ (fuel : Nat) (st : Mut) (nw sMin sMax : Int),
    DrainInvI cfg st nw sMin sMax →
    (chunkOf cfg sMax + 1 - nw).toNat + 1 ≤ fuel →
    (st.csl = cfg.maxY + 1 →
      drain O cfg fuel st nw (nw + 1) (chunkOf cfg sMax + 1) 1 sMin sMax =
        (st, DrainExit.fail Err.rangeExceeded)) ∧
    (st.csl ≤ cfg.maxY → chunkOf cfg sMax ≤ chunkOf cfg cfg.maxY →
      ∃ st2 ex,
        drain O cfg fuel st nw (nw + 1) (chunkOf cfg sMax + 1) 1 sMin sMax =
          (st2, ex) ∧
        (ex = DrainExit.partialReturn ∨ ex = DrainExit.done) ∧
        st2.csl = min (sMax + 1) (cfg.maxY + 1) ∧
        st2.missing = cfg.maxY + 1 - st2.csl ∧
        st2.slices = st.slices ∧
        st2.buf.hasException = false ∧
        (st2.buf.partiallyFull = true →
          st2.buf.minY = spanMin cfg (chunkOf cfg st2.csl) ∧
          st2.buf.maxY = spanMax cfg (chunkOf cfg st2.csl) ∧
          st2.buf.minY ≤ st2.csl ∧ st2.csl ≤ st2.buf.maxY) ∧
        (sMax < st.buf.maxY →
          st2.stream = st.stream ∧ st2.lineOffsets = st.lineOffsets ∧
          st2.currentPosition = st.currentPosition ∧ st2.buf = st.buf)) ∧
    (st.csl ≤ cfg.maxY → chunkOf cfg cfg.maxY < chunkOf cfg sMax →
      ∃ st2 e,
        drain O cfg fuel st nw (nw + 1) (chunkOf cfg sMax + 1) 1 sMin sMax =
          (st2, DrainExit.fail e) ∧
        (e = Err.rangeExceeded ∨ e = Err.undefinedBehavior) ∧
        st.stream.length < st2.stream.length ∧
        st2.csl = cfg.maxY + 1 ∧ st2.missing = 0) := by
  intro fuel
  induction fuel with
  | zero => intro st nw sMin sMax _ hfuel; omega
  | succ fuel ih =>
    intro st nw sMin sMax inv hfuel
    have hlib := inv.lib1
    refine ⟨?_, ?_, ?_⟩
    · -- A: the guard fires
      intro hend
      have hm0 : st.missing ≤ 0 := by rw [inv.mEq, hend]; omega
      exact drain_guard O cfg fuel st nw (nw + 1) _ 1 sMin sMax hm0
    · -- B: the range's last chunk exists
      intro hcsl hlast
      obtain ⟨hnw, hbm, hbM, hsm, hsM, hpf⟩ := inv.slot hcsl
      have hnw0 : 0 ≤ nw := hnw ▸ chunkOf_nonneg cfg st.csl hlib inv.cslLo
      have hmlecsl : spanMin cfg nw ≤ st.csl :=
        hnw ▸ spanMin_chunkOf_le cfg st.csl hlib inv.cslLo
      have hcsllt : st.csl < spanMin cfg nw + cfg.lib :=
        hnw ▸ lt_spanMin_chunkOf_succ cfg st.csl hlib inv.cslLo
      have hcslleM : st.csl ≤ spanMax cfg nw := by
        rw [spanMax]; omega
      have hMleMaxY : spanMax cfg nw ≤ cfg.maxY := by
        rw [spanMax]; omega
      have hnot0 : ¬ st.missing ≤ 0 := by rw [inv.mEq]; omega
      have hcslLo := inv.cslLo
      have hcslHi := inv.cslHi
      have hmEq := inv.mEq
      have hsMinC := inv.hsMin
      have hsMaxC := inv.hsMax
      by_cases hpart : sMax < spanMax cfg nw
      · -- the requested range ends inside the slot's span: partial return
        have hpTrue : st.buf.partiallyFull = true := hpf.mpr hpart
        rw [drain_early_val O cfg fuel st nw (nw + 1) _ 1 sMin sMax hnot0
          hpTrue (sMax + 1) (cfg.maxY - sMax)
          (by rw [hsM, hsm]; omega) (by rw [hsM, hsm]; omega)]
        have hchunk2 : chunkOf cfg (sMax + 1) = nw := by
          refine chunkOf_eq_of_mem cfg nw (sMax + 1) hlib hnw0 (by omega) ?_
          rw [spanMax] at hpart
          omega
        refine ⟨_, _, rfl, Or.inl rfl, ?_, ?_, rfl, inv.noExc, ?_, ?_⟩
        · show sMax + 1 = min (sMax + 1) (cfg.maxY + 1)
          omega
        · show cfg.maxY - sMax = cfg.maxY + 1 - (sMax + 1)
          ring
        · intro _
          show st.buf.minY = spanMin cfg (chunkOf cfg (sMax + 1)) ∧
            st.buf.maxY = spanMax cfg (chunkOf cfg (sMax + 1)) ∧
            st.buf.minY ≤ sMax + 1 ∧ sMax + 1 ≤ st.buf.maxY
          rw [hchunk2, hbm, hbM]
          omega
        · intro _
          exact ⟨rfl, rfl, rfl, rfl⟩
      · -- the slot's chunk completes: write it
        have hpFalse : st.buf.partiallyFull = false := by
          cases hb : st.buf.partiallyFull
          · rfl
          · exact absurd (hpf.mp hb) hpart
        rw [drain_write O cfg fuel st nw (nw + 1) _ 1 sMin sMax hnot0 hpFalse]
        have hL : st.buf.scanLineMax - st.buf.scanLineMin + 1 =
            spanMax cfg nw - st.csl + 1 := by
          rw [hsM, hsm]; omega
        obtain ⟨hc3, hm3, hb3, hs3⟩ := drainWriteStep_fields cfg st 1
        have hc3v : (drainWriteStep cfg st 1).csl = spanMax cfg nw + 1 := by
          rw [hc3, hL]; ring
        have hm3v : (drainWriteStep cfg st 1).missing =
            cfg.maxY + 1 - (spanMax cfg nw + 1) := by
          rw [hm3, hL, inv.mEq]; ring
        have hsMaxge : spanMax cfg nw ≤ sMax := by omega
        by_cases hstop : nw + 1 = chunkOf cfg sMax + 1
        · -- the last chunk of the range was just written: break
          rw [if_pos hstop]
          have hnwlast : nw = chunkOf cfg sMax := by omega
          have hsMaxin : spanMin cfg nw ≤ sMax ∧ sMax < spanMin cfg nw + cfg.lib := by
            constructor
            · calc spanMin cfg nw ≤ st.csl := hmlecsl
                _ ≤ sMax + 1 - 1 := by omega
                _ = sMax := by ring
            · have := hnwlast ▸ lt_spanMin_chunkOf_succ cfg sMax hlib (by omega)
              exact this
          have hcslval : min (sMax + 1) (cfg.maxY + 1) = spanMax cfg nw + 1 := by
            rw [spanMax] at hsMaxge ⊢
            omega
          refine ⟨_, _, rfl, Or.inr rfl, ?_, ?_, hs3, ?_, ?_, ?_⟩
          · rw [hc3v, hcslval]
          · rw [hm3v, hc3v]
          · rw [hb3]; exact inv.noExc
          · intro hp2
            rw [hb3] at hp2
            rw [hpFalse] at hp2
            exact absurd hp2 (by simp)
          · intro hlt
            rw [hbM] at hlt
            omega
        · -- more chunks to write: submit the next task and keep draining
          rw [if_neg hstop, if_neg hstop]
          have hstopgt : nw + 1 < chunkOf cfg sMax + 1 := by
            have : nw ≤ chunkOf cfg sMax := by
              rw [hnw]
              exact chunkOf_mono cfg st.csl sMax hlib inv.cslLo (by omega)
            omega
          -- the next chunk exists inside the window
          have hMltMaxY : spanMax cfg nw < cfg.maxY := by
            rcases lt_or_eq_of_le hMleMaxY with h | h
            · exact h
            · exfalso
              have h1 : chunkOf cfg sMax ≤ chunkOf cfg cfg.maxY := hlast
              have h2 : cfg.maxY < spanMin cfg nw + cfg.lib := by
                rw [spanMax] at h
                omega
              have h3 : chunkOf cfg cfg.maxY = nw :=
                chunkOf_eq_of_mem cfg nw cfg.maxY hlib hnw0 (by rw [spanMax] at h; omega) h2
              omega
          have hspan1 : spanMax cfg nw = spanMin cfg nw + cfg.lib - 1 := by
            rw [spanMax] at hMltMaxY ⊢
            omega
          have hspanMin2 : spanMin cfg (nw + 1) = spanMax cfg nw + 1 := by
            rw [hspan1, spanMin, spanMin]
            ring
          have hsMaxge2 : spanMin cfg (nw + 1) ≤ sMax := by
            have h1 : spanMin cfg (chunkOf cfg sMax) ≤ sMax :=
              spanMin_chunkOf_le cfg sMax hlib (by omega)
            have h2 : spanMin cfg (nw + 1) ≤ spanMin cfg (chunkOf cfg sMax) := by
              rw [spanMin, spanMin]
              have hmul : (nw + 1) * cfg.lib ≤ chunkOf cfg sMax * cfg.lib :=
                mul_le_mul_of_nonneg_right (by omega) (by omega)
              omega
            omega
          have hspanMax2 : spanMin cfg (nw + 1) ≤ spanMax cfg (nw + 1) + 1 := by
            rw [spanMax]
            have : spanMin cfg (nw + 1) ≤ cfg.maxY := by omega
            omega
          obtain ⟨lb2, hsub, hl2m, hl2M, hl2sm, hl2sM, hl2e, hl2x, hl2p⟩ :=
            submitTask_incr O cfg (drainWriteStep cfg st 1) (nw + 1) sMin sMax
              hff hlo hlib (by omega)
              (Or.inl (by rw [hb3, hpFalse]))
              hspanMax2
              (by omega)
              (by have : sMin ≤ st.csl := inv.hsMin
                  omega)
              (by have : sMin ≤ st.csl := inv.hsMin
                  omega)
          rw [hsub]
          -- the recursion re-enters the invariant one chunk further on
          have inv4 : DrainInvI cfg { drainWriteStep cfg st 1 with buf := lb2 }
              (nw + 1) sMin sMax := by
            refine ⟨hlib, inv.wnd, ?_, ?_, ?_, ?_, ?_, ?_, ?_⟩
            · show cfg.minY ≤ (drainWriteStep cfg st 1).csl
              rw [hc3v]; omega
            · show (drainWriteStep cfg st 1).csl ≤ cfg.maxY + 1
              rw [hc3v]; omega
            · show (drainWriteStep cfg st 1).missing =
                cfg.maxY + 1 - (drainWriteStep cfg st 1).csl
              rw [hc3v, hm3v]
            · show lb2.hasException = false
              rw [hl2e, hb3]; exact inv.noExc
            · show sMin ≤ (drainWriteStep cfg st 1).csl
              rw [hc3v]
              have : sMin ≤ st.csl := inv.hsMin
              omega
            · show (drainWriteStep cfg st 1).csl - 1 ≤ sMax
              rw [hc3v]; omega
            · intro hcsl4
              rw [hc3v] at hcsl4 ⊢
              have hchunk4 : chunkOf cfg (spanMax cfg nw + 1) = nw + 1 := by
                refine chunkOf_eq_of_mem cfg (nw + 1) _ hlib (by omega) ?_ ?_
                · omega
                · omega
              refine ⟨hchunk4.symm, by rw [hl2m], by rw [hl2M], ?_, ?_, ?_⟩
              · rw [hl2sm, hspanMin2]
                have : sMin ≤ st.csl := inv.hsMin
                omega
              · rw [hl2sM]
              · rw [hl2p]
          have hfuel4 : (chunkOf cfg sMax + 1 - (nw + 1)).toNat + 1 ≤ fuel := by
            omega
          obtain ⟨_, hB, _⟩ := ih { drainWriteStep cfg st 1 with buf := lb2 }
            (nw + 1) sMin sMax inv4 hfuel4
          have hcsl4 : ({ drainWriteStep cfg st 1 with buf := lb2 } : Mut).csl ≤
              cfg.maxY := by
            show (drainWriteStep cfg st 1).csl ≤ cfg.maxY
            rw [hc3v]; omega
          obtain ⟨st2, ex, hdr, hex, hcsl2, hm2, hsl2, hexc2, hpart2, _⟩ :=
            hB hcsl4 hlast
          refine ⟨st2, ex, hdr, hex, hcsl2, hm2, hsl2.trans hs3, hexc2, hpart2, ?_⟩
          intro hlt
          rw [hbM] at hlt
          omega
    · -- C: the range runs past the window's last chunk
      intro hcsl hlast
      obtain ⟨hnw, hbm, hbM, hsm, hsM, hpf⟩ := inv.slot hcsl
      have hnw0 : 0 ≤ nw := hnw ▸ chunkOf_nonneg cfg st.csl hlib inv.cslLo
      have hmlecsl : spanMin cfg nw ≤ st.csl :=
        hnw ▸ spanMin_chunkOf_le cfg st.csl hlib inv.cslLo
      have hcsllt : st.csl < spanMin cfg nw + cfg.lib :=
        hnw ▸ lt_spanMin_chunkOf_succ cfg st.csl hlib inv.cslLo
      have hcslleM : st.csl ≤ spanMax cfg nw := by
        rw [spanMax]; omega
      have hMleMaxY : spanMax cfg nw ≤ cfg.maxY := by
        rw [spanMax]; omega
      have hnot0 : ¬ st.missing ≤ 0 := by rw [inv.mEq]; omega
      have hcslLo := inv.cslLo
      have hcslHi := inv.cslHi
      have hmEq := inv.mEq
      have hsMinC := inv.hsMin
      have hsMaxC := inv.hsMax
      have hlastReal0 : 0 ≤ chunkOf cfg cfg.maxY :=
        chunkOf_nonneg cfg cfg.maxY hlib inv.wnd
      have hsMaxBig : cfg.maxY < sMax := by
        by_contra hle
        push_neg at hle
        rcases le_or_lt cfg.minY sMax with hge | hlt
        · exact absurd (chunkOf_mono cfg sMax cfg.maxY hlib hge hle) (by omega)
        · have h1 : chunkOf cfg sMax ≤ 0 := chunkOf_nonpos_of_lt cfg sMax hlib hlt
          omega
      have hfull : ¬ sMax < spanMax cfg nw := by omega
      have hpFalse : st.buf.partiallyFull = false := by
        cases hb : st.buf.partiallyFull
        · rfl
        · exact absurd (hpf.mp hb) hfull
      rw [drain_write O cfg fuel st nw (nw + 1) _ 1 sMin sMax hnot0 hpFalse]
      have hL : st.buf.scanLineMax - st.buf.scanLineMin + 1 =
          spanMax cfg nw - st.csl + 1 := by
        rw [hsM, hsm]; omega
      obtain ⟨hc3, hm3, hb3, _⟩ := drainWriteStep_fields cfg st 1
      have hc3v : (drainWriteStep cfg st 1).csl = spanMax cfg nw + 1 := by
        rw [hc3, hL]; ring
      have hm3v : (drainWriteStep cfg st 1).missing =
          cfg.maxY + 1 - (spanMax cfg nw + 1) := by
        rw [hm3, hL, inv.mEq]; ring
      have hgrow3 := drainWriteStep_stream_grows cfg st 1
      have hnwle : nw ≤ chunkOf cfg cfg.maxY := by
        rw [hnw]
        exact chunkOf_mono cfg st.csl cfg.maxY hlib hcslLo hcsl
      have hstop : ¬ (nw + 1 = chunkOf cfg sMax + 1) := by omega
      rw [if_neg hstop, if_neg hstop]
      have hspanMin2eq : spanMin cfg (nw + 1) = spanMin cfg nw + cfg.lib :=
        spanMin_succ cfg nw
      by_cases hMax : spanMax cfg nw = cfg.maxY
      · -- the final real chunk was just written
        have hc3v2 : (drainWriteStep cfg st 1).csl = cfg.maxY + 1 := by
          rw [hc3v, hMax]
        have hm2big : cfg.maxY + 1 ≤ spanMin cfg (nw + 1) := by
          rw [spanMax] at hMax
          omega
        have hspanMax2v : spanMax cfg (nw + 1) = cfg.maxY := by
          rw [spanMax]
          omega
        by_cases halign : spanMin cfg (nw + 1) = cfg.maxY + 1
        · -- chunk-aligned window: the out-of-range task is empty; the next
          -- iteration raises the range error
          obtain ⟨lb2, hsub, hl2m, hl2M, hl2sm, hl2sM, hl2e, hl2x, hl2p⟩ :=
            submitTask_incr O cfg (drainWriteStep cfg st 1) (nw + 1) sMin sMax
              hff hlo hlib (by omega)
              (Or.inl (by rw [hb3, hpFalse]))
              (by omega) (by omega) (by omega) (by omega)
          rw [hsub]
          have hcsl4 : ({ drainWriteStep cfg st 1 with buf := lb2 } : Mut).csl =
              cfg.maxY + 1 := by
            show (drainWriteStep cfg st 1).csl = cfg.maxY + 1
            exact hc3v2
          have inv4 : DrainInvI cfg { drainWriteStep cfg st 1 with buf := lb2 }
              (nw + 1) sMin sMax := by
            refine ⟨hlib, inv.wnd, ?_, ?_, ?_, ?_, ?_, ?_, ?_⟩
            · rw [hcsl4]; omega
            · rw [hcsl4]
            · show ({ drainWriteStep cfg st 1 with buf := lb2 } : Mut).missing =
                cfg.maxY + 1 - ({ drainWriteStep cfg st 1 with buf := lb2 } : Mut).csl
              rw [hcsl4]
              show (drainWriteStep cfg st 1).missing = cfg.maxY + 1 - (cfg.maxY + 1)
              rw [hm3v, hMax]
            · show lb2.hasException = false
              rw [hl2e, hb3]; exact inv.noExc
            · show sMin ≤ ({ drainWriteStep cfg st 1 with buf := lb2 } : Mut).csl
              rw [hcsl4]; omega
            · show ({ drainWriteStep cfg st 1 with buf := lb2 } : Mut).csl - 1 ≤ sMax
              rw [hcsl4]; omega
            · intro hc
              rw [hcsl4] at hc
              omega
          have hfuel4 : (chunkOf cfg sMax + 1 - (nw + 1)).toNat + 1 ≤ fuel := by
            omega
          obtain ⟨hA, _, _⟩ := ih { drainWriteStep cfg st 1 with buf := lb2 }
            (nw + 1) sMin sMax inv4 hfuel4
          refine ⟨_, Err.rangeExceeded, hA hcsl4, Or.inl rfl, ?_, hcsl4, ?_⟩
          · show st.stream.length <
              ({ drainWriteStep cfg st 1 with buf := lb2 } : Mut).stream.length
            show st.stream.length < (drainWriteStep cfg st 1).stream.length
            omega
          · show ({ drainWriteStep cfg st 1 with buf := lb2 } : Mut).missing = 0
            show (drainWriteStep cfg st 1).missing = 0
            rw [hm3v, hMax]
            ring
        · -- unaligned window: the out-of-range task loops out of bounds
          have hdiv : max (spanMin cfg (nw + 1)) sMin >
              min (spanMax cfg (nw + 1)) sMax + 1 := by
            rw [hspanMax2v]
            omega
          rw [submitTask_none_of_div O cfg (drainWriteStep cfg st 1) (nw + 1)
            sMin sMax (by rw [hb3, hpFalse]) hdiv]
          refine ⟨_, Err.undefinedBehavior, rfl, Or.inr rfl, ?_, hc3v2, ?_⟩
          · omega
          · rw [hm3v, hMax]
            ring
      · -- the window continues: write this chunk and keep draining
        have hMltMaxY : spanMax cfg nw < cfg.maxY := by
          omega
        have hspan1 : spanMax cfg nw = spanMin cfg nw + cfg.lib - 1 := by
          rw [spanMax] at hMltMaxY ⊢
          omega
        have hspanMin2 : spanMin cfg (nw + 1) = spanMax cfg nw + 1 := by
          omega
        have hsMaxge2 : spanMin cfg (nw + 1) ≤ sMax := by
          have h1 : spanMin cfg (chunkOf cfg sMax) ≤ sMax :=
            spanMin_chunkOf_le cfg sMax hlib (by omega)
          have h2 : spanMin cfg (nw + 1) ≤ spanMin cfg (chunkOf cfg sMax) := by
            rw [spanMin, spanMin]
            have hmul : (nw + 1) * cfg.lib ≤ chunkOf cfg sMax * cfg.lib :=
              mul_le_mul_of_nonneg_right (by omega) (by omega)
            omega
          omega
        have hspanMax2 : spanMin cfg (nw + 1) ≤ spanMax cfg (nw + 1) + 1 := by
          rw [spanMax]
          have : spanMin cfg (nw + 1) ≤ cfg.maxY := by omega
          omega
        obtain ⟨lb2, hsub, hl2m, hl2M, hl2sm, hl2sM, hl2e, hl2x, hl2p⟩ :=
          submitTask_incr O cfg (drainWriteStep cfg st 1) (nw + 1) sMin sMax
            hff hlo hlib (by omega)
            (Or.inl (by rw [hb3, hpFalse]))
            hspanMax2
            (by omega)
            (by omega)
            (by omega)
        rw [hsub]
        have inv4 : DrainInvI cfg { drainWriteStep cfg st 1 with buf := lb2 }
            (nw + 1) sMin sMax := by
          refine ⟨hlib, inv.wnd, ?_, ?_, ?_, ?_, ?_, ?_, ?_⟩
          · show cfg.minY ≤ (drainWriteStep cfg st 1).csl
            rw [hc3v]; omega
          · show (drainWriteStep cfg st 1).csl ≤ cfg.maxY + 1
            rw [hc3v]; omega
          · show (drainWriteStep cfg st 1).missing =
              cfg.maxY + 1 - (drainWriteStep cfg st 1).csl
            rw [hc3v, hm3v]
          · show lb2.hasException = false
            rw [hl2e, hb3]; exact inv.noExc
          · show sMin ≤ (drainWriteStep cfg st 1).csl
            rw [hc3v]; omega
          · show (drainWriteStep cfg st 1).csl - 1 ≤ sMax
            rw [hc3v]; omega
          · intro hcsl4
            rw [hc3v] at hcsl4 ⊢
            have hchunk4 : chunkOf cfg (spanMax cfg nw + 1) = nw + 1 := by
              refine chunkOf_eq_of_mem cfg (nw + 1) _ hlib (by omega) ?_ ?_
              · omega
              · omega
            refine ⟨hchunk4.symm, by rw [hl2m], by rw [hl2M], ?_, ?_, ?_⟩
            · rw [hl2sm, hspanMin2]
              omega
            · rw [hl2sM]
            · rw [hl2p]
        have hfuel4 : (chunkOf cfg sMax + 1 - (nw + 1)).toNat + 1 ≤ fuel := by
          omega
        obtain ⟨_, _, hC⟩ := ih { drainWriteStep cfg st 1 with buf := lb2 }
          (nw + 1) sMin sMax inv4 hfuel4
        have hcsl4 : ({ drainWriteStep cfg st 1 with buf := lb2 } : Mut).csl ≤
            cfg.maxY := by
          show (drainWriteStep cfg st 1).csl ≤ cfg.maxY
          rw [hc3v]; omega
        obtain ⟨st2, e, hdr, he, hgrow2, hcsl2, hm2⟩ := hC hcsl4 hlast
        refine ⟨st2, e, hdr, he, ?_, hcsl2, hm2⟩
        have hst4 : ({ drainWriteStep cfg st 1 with buf := lb2 } : Mut).stream =
            (drainWriteStep cfg st 1).stream := rfl
        rw [hst4] at hgrow2
        omega

/-- The exception scan on a buffer with no stored exception changes nothing. -/
theorem exceptionScan_clean (st : Mut) (h : st.buf.hasException = false) :
    exceptionScan st = (st, none) := by
  have hbuf : ({ st.buf with hasException := false } : LineBuffer) = st.buf := by
    cases hb : st.buf
    simp_all
  show (if st.buf.hasException = true
    then ({ st with buf := { st.buf with hasException := false } },
      some (Err.ioError st.buf.exception))
    else ({ st with buf := { st.buf with hasException := false } }, none)) =
    (st, none)
  rw [h, hbuf]
  simp

/-- `max (min poolSize x) 1 = 1`: the zero-thread pool always submits exactly
one initial task. -/
theorem numTasks_one (x : Int) : max (min poolSize x) 1 = 1 := by
  rw [poolSize]
  omega

/-- Submitting a batch of one task. -/
theorem submitSeq_one (O : TaskOracle) (cfg : Cfg) (st : Mut)
    (base step sMin sMax : Int) :
    submitSeq O cfg st base step sMin sMax 1 =
      match submitTask O cfg st base sMin sMax with
      | none => none
      | some st1 => some st1 := by
  cases h : submitTask O cfg st base sMin sMax with
  | none => simp [submitSeq, h]
  | some st1 => simp [submitSeq, h]

/-- `writePixels` in increasing line order, from an invariant state with a
bound slice table and no worker failures.  (A) On a file whose data window
is already fully written, any request raises the range error before writing
any bytes.  (B) If the requested range's final chunk index does not pass the
window's final chunk index, the call succeeds — even if the request exceeds
the remaining scanlines — advancing the cursor over the requested lines
clamped to the window; a request for 0 scanlines changes nothing observable.
(C) If the requested range's final chunk index passes the window's final
chunk, the call fails, but only after writing every remaining chunk of the
window to the stream. -/
theorem writePixelsI_spec (O : TaskOracle) (cfg : Cfg) (st : Mut) (n : Int)
    (hff : FailFree O) (hlo : cfg.lineOrder = LineOrder.INCREASING_Y)
    (hn : 0 ≤ n) (hsl : ¬ st.slices.length = 0) (hGood : Good cfg st) :
    (st.missing = 0 →
      ∃ lb, writePixels O cfg st n = ({ st with buf := lb }, some Err.rangeExceeded)) ∧
    (0 < st.missing → chunkOf cfg (st.csl + (n - 1)) ≤ chunkOf cfg cfg.maxY →
      ∃ st2, writePixels O cfg st n = (st2, none) ∧
        st2.csl = min (st.csl + n) (cfg.maxY + 1) ∧
        st2.missing = cfg.maxY + 1 - st2.csl ∧
        st2.slices = st.slices ∧
        Good cfg st2 ∧
        (n = 0 → st2.csl = st.csl ∧ st2.missing = st.missing ∧
          st2.stream = st.stream ∧ st2.lineOffsets = st.lineOffsets ∧
          st2.currentPosition = st.currentPosition)) ∧
    (0 < st.missing → chunkOf cfg cfg.maxY < chunkOf cfg (st.csl + (n - 1)) →
      ∃ st2 e, writePixels O cfg st n = (st2, some e) ∧
        (e = Err.rangeExceeded ∨ e = Err.undefinedBehavior) ∧
        st.stream.length < st2.stream.length ∧
        st2.csl = cfg.maxY + 1 ∧ st2.missing = 0) := by
  obtain ⟨hlib, hwnd, hnoExc, hincr, hdecr, hpart⟩ := hGood
  obtain ⟨hcslLo, hcslHi, hmEq⟩ := hincr hlo
  -- shared facts about the cursor's chunk
  have hfm : spanMin cfg (chunkOf cfg st.csl) ≤ st.csl :=
    spanMin_chunkOf_le cfg st.csl hlib hcslLo
  have hfl : st.csl < spanMin cfg (chunkOf cfg st.csl) + cfg.lib :=
    lt_spanMin_chunkOf_succ cfg st.csl hlib hcslLo
  have hfM : spanMax cfg (chunkOf cfg st.csl) ≤ cfg.maxY := by
    rw [spanMax]; omega
  have hfMc : st.csl ≤ spanMax cfg (chunkOf cfg st.csl) + 1 := by
    rw [spanMax]; omega
  have hf0 : 0 ≤ chunkOf cfg st.csl := chunkOf_nonneg cfg st.csl hlib hcslLo
  -- the slot precondition for the initial task
  have hslot : st.buf.partiallyFull = false ∨
      (st.buf.minY = spanMin cfg (chunkOf cfg st.csl) ∧
       st.buf.maxY = spanMax cfg (chunkOf cfg st.csl)) := by
    cases hb : st.buf.partiallyFull
    · exact Or.inl rfl
    · exact Or.inr ⟨(hpart hb).1, (hpart hb).2.1⟩
  -- the initial task
  obtain ⟨lb2, hsub, hl2m, hl2M, hl2sm, hl2sM, hl2e, hl2x, hl2p⟩ :=
    submitTask_incr O cfg st (chunkOf cfg st.csl) (st.csl)
      (st.csl + n - 1) hff hlo hlib hf0 hslot
      (by omega) (by omega) (by omega) (by omega)
  -- reduce writePixels to the drain call
  have hw : writePixels O cfg st n =
      finishWrite (drain O cfg
        ((chunkOf cfg (st.csl + (n - 1)) + 1 - chunkOf cfg st.csl).natAbs + 1)
        { st with buf := lb2 } (chunkOf cfg st.csl) (chunkOf cfg st.csl + 1)
        (chunkOf cfg (st.csl + (n - 1)) + 1) 1 st.csl (st.csl + n - 1)) := by
    simp only [writePixels, if_neg hsl, hlo, reduceIte, numTasks_one,
      Int.toNat_one, submitSeq_one, hsub]
  have hassoc : st.csl + (n - 1) = st.csl + n - 1 := by ring
  rw [hassoc] at hw
  -- the drain entry invariant
  have hinv : DrainInvI cfg { st with buf := lb2 } (chunkOf cfg st.csl)
      st.csl (st.csl + n - 1) := by
    refine ⟨hlib, hwnd, hcslLo, hcslHi, hmEq,
      by show lb2.hasException = false; rw [hl2e]; exact hnoExc,
      le_refl _, by show st.csl - 1 ≤ st.csl + n - 1; omega, ?_⟩
    intro hcm
    refine ⟨rfl, hl2m, hl2M, ?_, hl2sM, hl2p⟩
    show lb2.scanLineMin = st.csl
    rw [hl2sm]
    omega
  have hfuel : (chunkOf cfg (st.csl + n - 1) + 1 - chunkOf cfg st.csl).toNat + 1 ≤
      (chunkOf cfg (st.csl + n - 1) + 1 - chunkOf cfg st.csl).natAbs + 1 := by
    omega
  obtain ⟨hA, hB, hC⟩ := drainI_spec O cfg hff hlo _ { st with buf := lb2 }
    (chunkOf cfg st.csl) st.csl (st.csl + n - 1) hinv hfuel
  rw [hassoc]
  refine ⟨?_, ?_, ?_⟩
  · -- A: nothing remains
    intro hm0
    have hend : ({ st with buf := lb2 } : Mut).csl = cfg.maxY + 1 := by
      show st.csl = cfg.maxY + 1
      omega
    rw [hw, hA hend]
    exact ⟨lb2, rfl⟩
  · -- B: success
    intro hmpos hlast
    have hcm : ({ st with buf := lb2 } : Mut).csl ≤ cfg.maxY := by
      show st.csl ≤ cfg.maxY
      omega
    have hcslM : st.csl ≤ spanMax cfg (chunkOf cfg st.csl) := by
      rw [spanMax]
      omega
    obtain ⟨st2, ex, hdr, hex, hcsl2, hm2, hsl2, hexc2, hpart2, hsame⟩ :=
      hB hcm hlast
    have hfin : finishWrite (st2, ex) = (st2, none) := by
      rcases hex with h | h
      · rw [h]; rfl
      · rw [h]
        show exceptionScan st2 = (st2, none)
        exact exceptionScan_clean st2 hexc2
    refine ⟨st2, by rw [hw, hdr, hfin], ?_, hm2, ?_, ?_, ?_⟩
    · rw [hcsl2]
      omega
    · exact hsl2
    · -- Good for the final state
      refine ⟨hlib, hwnd, hexc2, ?_, ?_, hpart2⟩
      · intro _
        refine ⟨?_, ?_, hm2⟩ <;> rw [hcsl2] <;> omega
      · intro hd
        rw [hlo] at hd
        exact absurd hd (by simp)
    · intro hn0
      have hsm : st.csl + n - 1 < ({ st with buf := lb2 } : Mut).buf.maxY := by
        show st.csl + n - 1 < lb2.maxY
        rw [hn0, hl2M]
        omega
      obtain ⟨hstr, hoff, hcp, _⟩ := hsame hsm
      refine ⟨?_, ?_, hstr, hoff, hcp⟩
      · rw [hcsl2, hn0]
        omega
      · rw [hm2, hcsl2, hn0]
        omega
  · -- C: failure past the window
    intro hmpos hlast
    have hcm : ({ st with buf := lb2 } : Mut).csl ≤ cfg.maxY := by
      show st.csl ≤ cfg.maxY
      omega
    obtain ⟨st2, e, hdr, he, hgrow, hcsl2, hm2⟩ := hC hcm hlast
    refine ⟨st2, e, by rw [hw, hdr]; rcases he with h | h <;> rw [h] <;> rfl,
      he, hgrow, hcsl2, hm2⟩

/-- A task submitted for a chunk whose clamped gather range reaches outside
the data window indexes the per-scanline tables out of bounds: the model
reports it as undefined behavior. -/
theorem submitTask_none_of_oob (O : TaskOracle) (cfg : Cfg) (st : Mut)
    (k sMin sMax : Int)
    (hslot : st.buf.partiallyFull = false ∨
      (st.buf.minY = spanMin cfg k ∧ st.buf.maxY = spanMax cfg k))
    (hne : max (spanMin cfg k) sMin ≤ min (spanMax cfg k) sMax)
    (hoob : max (spanMin cfg k) sMin < cfg.minY ∨
      cfg.maxY < min (spanMax cfg k) sMax) :
    submitTask O cfg st k sMin sMax = none := by
  have hlb1 : mkLineBufferTask cfg st.buf k sMin sMax =
      { st.buf with
        minY := spanMin cfg k
        maxY := spanMax cfg k
        partiallyFull := true
        scanLineMin := max (spanMin cfg k) sMin
        scanLineMax := min (spanMax cfg k) sMax } := by
    rcases hslot with hp | ⟨hm, hM⟩
    · rw [mkLineBufferTask]
      simp only [hp, Bool.false_eq_true, if_false]
      rw [spanMin, spanMax, spanMin]
    · rw [mkLineBufferTask]
      by_cases hp : st.buf.partiallyFull
      · simp only [hp, if_true, hm, hM]
      · simp only [hp, Bool.false_eq_true, if_false]
        rw [spanMin, spanMax, spanMin]
  rw [submitTask, hlb1]
  unfold execTask
  rw [if_neg (by simp only; omega), if_pos (by simp only; exact ⟨hne, hoob⟩)]

/-- Full characterization of the drain loop in decreasing line order, the
mirror of `drainI_spec`.  In outcome (C) — the requested range descending
past the window's first chunk by a full chunk or more — the loop always ends
in the out-of-range task's undefined behavior, after writing every remaining
chunk down to the bottom of the window. -/
theorem drainD_spec (O : TaskOracle) (cfg : Cfg) (hff : FailFree O)
    (hlo : cfg.lineOrder = LineOrder.DECREASING_Y) :
    ∀ (fuel : Nat) (st : Mut) (nw sMin sMax : Int),
    DrainInvD cfg st nw sMin sMax →
    (nw - (chunkOf cfg sMin - 1)).toNat + 1 ≤ fuel →
    (st.csl = cfg.minY - 1 →
      drain O cfg fuel st nw (nw - 1) (chunkOf cfg sMin - 1) (-1) sMin sMax =
        (st, DrainExit.fail Err.rangeExceeded)) ∧
    (cfg.minY ≤ st.csl → 0 ≤ chunkOf cfg sMin →
      ∃ st2 ex,
        drain O cfg fuel st nw (nw - 1) (chunkOf cfg sMin - 1) (-1) sMin sMax =
          (st2, ex) ∧
        (ex = DrainExit.partialReturn ∨ ex = DrainExit.done) ∧
        st2.csl = max (sMin - 1) (cfg.minY - 1) ∧
        st2.missing = st2.csl - cfg.minY + 1 ∧
        st2.slices = st.slices ∧
        st2.buf.hasException = false ∧
        (st2.buf.partiallyFull = true →
          st2.buf.minY = spanMin cfg (chunkOf cfg st2.csl) ∧
          st2.buf.maxY = spanMax cfg (chunkOf cfg st2.csl) ∧
          st2.buf.minY ≤ st2.csl ∧ st2.csl ≤ st2.buf.maxY) ∧
        (st.buf.minY < sMin →
          st2.stream = st.stream ∧ st2.lineOffsets = st.lineOffsets ∧
          st2.currentPosition = st.currentPosition ∧ st2.buf = st.buf)) ∧
    (cfg.minY ≤ st.csl → chunkOf cfg sMin < 0 →
      ∃ st2,
        drain O cfg fuel st nw (nw - 1) (chunkOf cfg sMin - 1) (-1) sMin sMax =
          (st2, DrainExit.fail Err.undefinedBehavior) ∧
        st.stream.length < st2.stream.length ∧
        st2.csl = cfg.minY - 1 ∧ st2.missing = 0) := by
  intro fuel
  induction fuel with
  | zero => intro st nw sMin sMax _ hfuel; omega
  | succ fuel ih =>
    intro st nw sMin sMax inv hfuel
    have hlib := inv.lib1
    refine ⟨?_, ?_, ?_⟩
    · intro hend
      have hm0 : st.missing ≤ 0 := by rw [inv.mEq, hend]; omega
      exact drain_guard O cfg fuel st nw (nw - 1) _ (-1) sMin sMax hm0
    · -- B: success
      intro hcsl hlast
      obtain ⟨hnw, hbm, hbM, hsM, hsm, hpf⟩ := inv.slot hcsl
      have hnw0 : 0 ≤ nw := hnw ▸ chunkOf_nonneg cfg st.csl hlib hcsl
      have hmlecsl : spanMin cfg nw ≤ st.csl :=
        hnw ▸ spanMin_chunkOf_le cfg st.csl hlib hcsl
      have hcsllt : st.csl < spanMin cfg nw + cfg.lib :=
        hnw ▸ lt_spanMin_chunkOf_succ cfg st.csl hlib hcsl
      have hcslHi := inv.cslHi
      have hmEq := inv.mEq
      have hsMinC := inv.hsMin
      have hsMaxC := inv.hsMax
      have hnot0 : ¬ st.missing ≤ 0 := by rw [inv.mEq]; omega
      by_cases hpart : spanMin cfg nw < sMin
      · -- partial return
        have hpTrue : st.buf.partiallyFull = true := hpf.mpr hpart
        rw [drain_early_val O cfg fuel st nw (nw - 1) _ (-1) sMin sMax hnot0
          hpTrue (sMin - 1) (sMin - 1 - cfg.minY + 1)
          (by rw [hsM, hsm]; omega) (by rw [hsM, hsm]; omega)]
        have hchunk2 : chunkOf cfg (sMin - 1) = nw := by
          refine chunkOf_eq_of_mem cfg nw (sMin - 1) hlib hnw0 (by omega) ?_
          omega
        have hspanlo : cfg.minY ≤ spanMin cfg nw := by
          have hmul : 0 ≤ nw * cfg.lib := mul_nonneg hnw0 (by omega)
          rw [spanMin]; omega
        refine ⟨_, _, rfl, Or.inl rfl, ?_, ?_, rfl, inv.noExc, ?_, ?_⟩
        · show sMin - 1 = max (sMin - 1) (cfg.minY - 1)
          omega
        · rfl
        · intro _
          show st.buf.minY = spanMin cfg (chunkOf cfg (sMin - 1)) ∧
            st.buf.maxY = spanMax cfg (chunkOf cfg (sMin - 1)) ∧
            st.buf.minY ≤ sMin - 1 ∧ sMin - 1 ≤ st.buf.maxY
          rw [hchunk2, hbm, hbM, spanMax]
          omega
        · intro _
          exact ⟨rfl, rfl, rfl, rfl⟩
      · -- the slot's chunk completes: write it
        have hpFalse : st.buf.partiallyFull = false := by
          cases hb : st.buf.partiallyFull
          · rfl
          · exact absurd (hpf.mp hb) hpart
        rw [drain_write O cfg fuel st nw (nw - 1) _ (-1) sMin sMax hnot0 hpFalse]
        have hL : st.buf.scanLineMax - st.buf.scanLineMin + 1 =
            st.csl - spanMin cfg nw + 1 := by
          rw [hsM, hsm]; omega
        obtain ⟨hc3, hm3, hb3, hs3⟩ := drainWriteStep_fields cfg st (-1)
        have hc3v : (drainWriteStep cfg st (-1)).csl = spanMin cfg nw - 1 := by
          rw [hc3, hL]; ring
        have hm3v : (drainWriteStep cfg st (-1)).missing =
            spanMin cfg nw - 1 - cfg.minY + 1 := by
          rw [hm3, hL, inv.mEq]; ring
        have hsMinle : sMin ≤ spanMin cfg nw := by omega
        by_cases hstop : nw + (-1) = chunkOf cfg sMin - 1
        · -- the last chunk of the range was just written: break
          rw [if_pos hstop]
          have hnwlast : nw = chunkOf cfg sMin := by omega
          have hcslval : max (sMin - 1) (cfg.minY - 1) = spanMin cfg nw - 1 := by
            by_cases hnwz : nw = 0
            · have hm0 : spanMin cfg nw = cfg.minY := by
                rw [hnwz, spanMin]; ring
              omega
            · -- a positive chunk index puts sMin at its span's start
              have h1 : cfg.minY ≤ sMin := by
                by_contra hlt
                push_neg at hlt
                have := chunkOf_nonpos_of_lt cfg sMin hlib hlt
                omega
              have h2 : spanMin cfg (chunkOf cfg sMin) ≤ sMin :=
                spanMin_chunkOf_le cfg sMin hlib h1
              rw [hnwlast] at hmlecsl hsMinle ⊢
              omega
          refine ⟨_, _, rfl, Or.inr rfl, ?_, ?_, hs3, ?_, ?_, ?_⟩
          · rw [hc3v, hcslval]
          · rw [hm3v, hc3v]
          · rw [hb3]; exact inv.noExc
          · intro hp2
            rw [hb3, hpFalse] at hp2
            exact absurd hp2 (by simp)
          · intro hlt
            rw [hbm] at hlt
            omega
        · -- more chunks to write: submit the next task and keep draining
          have hstop2 : ¬ (nw - 1 = chunkOf cfg sMin - 1) := by omega
          rw [if_neg hstop, if_neg hstop2]
          have hstopgt : chunkOf cfg sMin - 1 < nw + (-1) := by
            have h1 : chunkOf cfg sMin ≤ nw := by
              rcases le_or_lt cfg.minY sMin with hge | hlt
              · have := chunkOf_mono cfg sMin st.csl hlib hge (by omega)
                omega
              · have := chunkOf_nonpos_of_lt cfg sMin hlib hlt
                omega
            omega
          -- the chunk below exists inside the window
          have hnw1 : 1 ≤ nw := by
            by_contra hz
            push_neg at hz
            interval_cases nw
            omega
          have hspan0 : cfg.minY + cfg.lib ≤ spanMin cfg nw := by
            rw [spanMin]
            have hmul : 1 * cfg.lib ≤ nw * cfg.lib :=
              mul_le_mul_of_nonneg_right (by omega) (by omega)
            omega
          have hspanMin2 : spanMin cfg (nw - 1) = spanMin cfg nw - cfg.lib := by
            rw [spanMin, spanMin]; ring
          have hspanMax2 : spanMax cfg (nw - 1) = spanMin cfg nw - 1 := by
            rw [spanMax, hspanMin2]
            omega
          obtain ⟨lb2, hsub, hl2m, hl2M, hl2sm, hl2sM, hl2e, hl2x, hl2p⟩ :=
            submitTask_decr O cfg (drainWriteStep cfg st (-1)) (nw - 1) sMin sMax
              hff hlo hlib (Or.inl (by omega))
              (Or.inl (by rw [hb3, hpFalse]))
              (by omega)
              (by omega)
              (by omega)
              (by omega)
          rw [hsub]
          have inv4 : DrainInvD cfg { drainWriteStep cfg st (-1) with buf := lb2 }
              (nw - 1) sMin sMax := by
            refine ⟨hlib, inv.wnd, ?_, ?_, ?_, ?_, ?_, ?_, ?_⟩
            · show cfg.minY - 1 ≤ (drainWriteStep cfg st (-1)).csl
              rw [hc3v]; omega
            · show (drainWriteStep cfg st (-1)).csl ≤ cfg.maxY
              rw [hc3v]; omega
            · show (drainWriteStep cfg st (-1)).missing =
                (drainWriteStep cfg st (-1)).csl - cfg.minY + 1
              rw [hc3v, hm3v]
            · show lb2.hasException = false
              rw [hl2e, hb3]; exact inv.noExc
            · show sMin ≤ (drainWriteStep cfg st (-1)).csl + 1
              rw [hc3v]; omega
            · show (drainWriteStep cfg st (-1)).csl ≤ sMax
              rw [hc3v]; omega
            · intro hcsl4
              rw [hc3v] at hcsl4 ⊢
              have hchunk4 : chunkOf cfg (spanMin cfg nw - 1) = nw - 1 := by
                refine chunkOf_eq_of_mem cfg (nw - 1) _ hlib (by omega) ?_ ?_
                · omega
                · omega
              refine ⟨hchunk4.symm, by rw [hl2m], by rw [hl2M], ?_, ?_, ?_⟩
              · rw [hl2sM, hspanMax2]
                omega
              · rw [hl2sm]
              · rw [hl2p]
          have hfuel4 : ((nw - 1) - (chunkOf cfg sMin - 1)).toNat + 1 ≤ fuel := by
            omega
          obtain ⟨_, hB, _⟩ := ih { drainWriteStep cfg st (-1) with buf := lb2 }
            (nw - 1) sMin sMax inv4 hfuel4
          have hcsl4 : cfg.minY ≤
              ({ drainWriteStep cfg st (-1) with buf := lb2 } : Mut).csl := by
            show cfg.minY ≤ (drainWriteStep cfg st (-1)).csl
            rw [hc3v]; omega
          obtain ⟨st2, ex, hdr, hex, hcsl2, hm2, hsl2, hexc2, hpart2, _⟩ :=
            hB hcsl4 hlast
          have hdr2 : drain O cfg fuel
              { drainWriteStep cfg st (-1) with buf := lb2 } (nw + -1)
              (nw + -1 + -1) (chunkOf cfg sMin - 1) (-1) sMin sMax = (st2, ex) := by
            rw [show nw + -1 = nw - 1 by ring,
              show nw - 1 + -1 = nw - 1 - 1 by ring]
            exact hdr
          refine ⟨st2, ex, hdr2, hex, hcsl2, hm2, hsl2.trans hs3, hexc2, hpart2, ?_⟩
          intro hlt
          rw [hbm] at hlt
          omega
    · -- C: the range descends past the window's first chunk
      intro hcsl hlast
      obtain ⟨hnw, hbm, hbM, hsM, hsm, hpf⟩ := inv.slot hcsl
      have hnw0 : 0 ≤ nw := hnw ▸ chunkOf_nonneg cfg st.csl hlib hcsl
      have hmlecsl : spanMin cfg nw ≤ st.csl :=
        hnw ▸ spanMin_chunkOf_le cfg st.csl hlib hcsl
      have hcsllt : st.csl < spanMin cfg nw + cfg.lib :=
        hnw ▸ lt_spanMin_chunkOf_succ cfg st.csl hlib hcsl
      have hcslHi := inv.cslHi
      have hmEq := inv.mEq
      have hsMinC := inv.hsMin
      have hsMaxC := inv.hsMax
      have hnot0 : ¬ st.missing ≤ 0 := by rw [inv.mEq]; omega
      have hsMinBig : sMin ≤ cfg.minY - cfg.lib := by
        by_contra hgt
        push_neg at hgt
        rcases le_or_lt cfg.minY sMin with hge | hlt
        · exact absurd (chunkOf_nonneg cfg sMin hlib hge) (by omega)
        · -- minY - lib < sMin < minY: chunk 0 by truncation
          have h1 : chunkOf cfg sMin = 0 := by
            rw [chunkOf]
            have h2 : sMin - cfg.minY = -(cfg.minY - sMin) := by ring
            rw [h2, Int.neg_tdiv, Int.tdiv_eq_ediv (by omega) (by omega),
              Int.ediv_eq_zero_of_lt (by omega) (by omega)]
            ring
          omega
      have hpart : ¬ spanMin cfg nw < sMin := by
        have : cfg.minY ≤ spanMin cfg nw := by
          rw [spanMin]; nlinarith
        omega
      have hpFalse : st.buf.partiallyFull = false := by
        cases hb : st.buf.partiallyFull
        · rfl
        · exact absurd (hpf.mp hb) hpart
      rw [drain_write O cfg fuel st nw (nw - 1) _ (-1) sMin sMax hnot0 hpFalse]
      have hL : st.buf.scanLineMax - st.buf.scanLineMin + 1 =
          st.csl - spanMin cfg nw + 1 := by
        rw [hsM, hsm]; omega
      obtain ⟨hc3, hm3, hb3, hs3⟩ := drainWriteStep_fields cfg st (-1)
      have hc3v : (drainWriteStep cfg st (-1)).csl = spanMin cfg nw - 1 := by
        rw [hc3, hL]; ring
      have hm3v : (drainWriteStep cfg st (-1)).missing =
          spanMin cfg nw - 1 - cfg.minY + 1 := by
        rw [hm3, hL, inv.mEq]; ring
      have hgrow3 := drainWriteStep_stream_grows cfg st (-1)
      have hstop : ¬ (nw + (-1) = chunkOf cfg sMin - 1) := by omega
      have hstop2 : ¬ (nw - 1 = chunkOf cfg sMin - 1) := by omega
      rw [if_neg hstop, if_neg hstop2]
      by_cases hnwz : nw = 0
      · -- the window's first chunk was just written; the next task runs out
        -- of the window
        have hspan0 : spanMin cfg nw = cfg.minY := by
          rw [hnwz, spanMin]; ring
        have hspanM1 : spanMin cfg (nw - 1) = cfg.minY - cfg.lib := by
          rw [hnwz, spanMin]; ring
        have hspanM2 : spanMax cfg (nw - 1) = cfg.minY - 1 := by
          rw [spanMax, hspanM1]
          omega
        have hoobsub : submitTask O cfg (drainWriteStep cfg st (-1)) (nw - 1)
            sMin sMax = none := by
          refine submitTask_none_of_oob O cfg (drainWriteStep cfg st (-1))
            (nw - 1) sMin sMax (Or.inl (by rw [hb3, hpFalse])) ?_ ?_
          · rw [hspanM1, hspanM2]
            have hmx : max (cfg.minY - cfg.lib) sMin = cfg.minY - cfg.lib := by
              omega
            have hmn : min (cfg.minY - 1) sMax = cfg.minY - 1 := by
              omega
            rw [hmx, hmn]
            omega
          · left
            rw [hspanM1]
            omega
        rw [hoobsub]
        refine ⟨_, rfl, ?_, ?_, ?_⟩
        · omega
        · rw [hc3v, hspan0]
        · rw [hm3v, hspan0]
          ring
      · -- the window continues downward: keep draining
        have hnw1 : 1 ≤ nw := by omega
        have hspan0 : cfg.minY + cfg.lib ≤ spanMin cfg nw := by
          rw [spanMin]
          have hmul : 1 * cfg.lib ≤ nw * cfg.lib :=
            mul_le_mul_of_nonneg_right (by omega) (by omega)
          omega
        have hspanMin2 : spanMin cfg (nw - 1) = spanMin cfg nw - cfg.lib := by
          rw [spanMin, spanMin]; ring
        have hspanMax2 : spanMax cfg (nw - 1) = spanMin cfg nw - 1 := by
          rw [spanMax, hspanMin2]
          omega
        obtain ⟨lb2, hsub, hl2m, hl2M, hl2sm, hl2sM, hl2e, hl2x, hl2p⟩ :=
          submitTask_decr O cfg (drainWriteStep cfg st (-1)) (nw - 1) sMin sMax
            hff hlo hlib (Or.inl (by omega))
            (Or.inl (by rw [hb3, hpFalse]))
            (by omega)
            (by omega)
            (by omega)
            (by omega)
        rw [hsub]
        have inv4 : DrainInvD cfg { drainWriteStep cfg st (-1) with buf := lb2 }
            (nw - 1) sMin sMax := by
          refine ⟨hlib, inv.wnd, ?_, ?_, ?_, ?_, ?_, ?_, ?_⟩
          · show cfg.minY - 1 ≤ (drainWriteStep cfg st (-1)).csl
            rw [hc3v]; omega
          · show (drainWriteStep cfg st (-1)).csl ≤ cfg.maxY
            rw [hc3v]; omega
          · show (drainWriteStep cfg st (-1)).missing =
              (drainWriteStep cfg st (-1)).csl - cfg.minY + 1
            rw [hc3v, hm3v]
          · show lb2.hasException = false
            rw [hl2e, hb3]; exact inv.noExc
          · show sMin ≤ (drainWriteStep cfg st (-1)).csl + 1
            rw [hc3v]; omega
          · show (drainWriteStep cfg st (-1)).csl ≤ sMax
            rw [hc3v]; omega
          · intro hcsl4
            rw [hc3v] at hcsl4 ⊢
            have hchunk4 : chunkOf cfg (spanMin cfg nw - 1) = nw - 1 := by
              refine chunkOf_eq_of_mem cfg (nw - 1) _ hlib (by omega) ?_ ?_
              · omega
              · omega
            refine ⟨hchunk4.symm, by rw [hl2m], by rw [hl2M], ?_, ?_, ?_⟩
            · rw [hl2sM, hspanMax2]
              omega
            · rw [hl2sm]
            · rw [hl2p]
        have hfuel4 : ((nw - 1) - (chunkOf cfg sMin - 1)).toNat + 1 ≤ fuel := by
          omega
        obtain ⟨_, _, hC⟩ := ih { drainWriteStep cfg st (-1) with buf := lb2 }
          (nw - 1) sMin sMax inv4 hfuel4
        have hcsl4 : cfg.minY ≤
            ({ drainWriteStep cfg st (-1) with buf := lb2 } : Mut).csl := by
          show cfg.minY ≤ (drainWriteStep cfg st (-1)).csl
          rw [hc3v]; omega
        obtain ⟨st2, hdr, hgrow2, hcsl2, hm2⟩ := hC hcsl4 hlast
        have hdr2 : drain O cfg fuel
            { drainWriteStep cfg st (-1) with buf := lb2 } (nw + -1)
            (nw + -1 + -1) (chunkOf cfg sMin - 1) (-1) sMin sMax =
            (st2, DrainExit.fail Err.undefinedBehavior) := by
          rw [show nw + -1 = nw - 1 by ring,
            show nw - 1 + -1 = nw - 1 - 1 by ring]
          exact hdr
        refine ⟨st2, hdr2, ?_, hcsl2, hm2⟩
        have hst4 : ({ drainWriteStep cfg st (-1) with buf := lb2 } : Mut).stream =
            (drainWriteStep cfg st (-1)).stream := rfl
        rw [hst4] at hgrow2
        omega

/-- `writePixels` in decreasing line order, from an invariant state with a
bound slice table and no worker failures.  (A) On a file whose data window
is already fully written, any request throws: the range error when at least
two lines share a buffer or nothing is requested, and — with one line per
buffer and a nonzero request — the out-of-window task's undefined behavior;
either way nothing is written.  (B) If the requested range's final chunk
index is nonnegative the call succeeds, moving the cursor down over the
requested lines clamped to the window; a request for 0 scanlines changes
nothing observable.  (C) If the requested range descends a full chunk below
the window, the call hits undefined behavior, but only after writing every
remaining chunk of the window to the stream. -/
theorem writePixelsD_spec (O : TaskOracle) (cfg : Cfg) (st : Mut) (n : Int)
    (hff : FailFree O) (hlo : cfg.lineOrder = LineOrder.DECREASING_Y)
    (hn : 0 ≤ n) (hsl : ¬ st.slices.length = 0) (hGood : Good cfg st) :
    (st.missing = 0 →
      ∃ st2 e, writePixels O cfg st n = (st2, some e) ∧
        (e = Err.rangeExceeded ∨ e = Err.undefinedBehavior) ∧
        (2 ≤ cfg.lib ∨ n = 0 → e = Err.rangeExceeded) ∧
        st2.csl = st.csl ∧ st2.missing = st.missing ∧
        st2.stream = st.stream ∧ st2.lineOffsets = st.lineOffsets ∧
        st2.slices = st.slices) ∧
    (0 < st.missing → 0 ≤ chunkOf cfg (st.csl - (n - 1)) →
      ∃ st2, writePixels O cfg st n = (st2, none) ∧
        st2.csl = max (st.csl - n) (cfg.minY - 1) ∧
        st2.missing = st2.csl - cfg.minY + 1 ∧
        st2.slices = st.slices ∧
        Good cfg st2 ∧
        (n = 0 → st2.csl = st.csl ∧ st2.missing = st.missing ∧
          st2.stream = st.stream ∧ st2.lineOffsets = st.lineOffsets ∧
          st2.currentPosition = st.currentPosition)) ∧
    (0 < st.missing → chunkOf cfg (st.csl - (n - 1)) < 0 →
      ∃ st2, writePixels O cfg st n = (st2, some Err.undefinedBehavior) ∧
        st.stream.length < st2.stream.length ∧
        st2.csl = cfg.minY - 1 ∧ st2.missing = 0) := by
  obtain ⟨hlib, hwnd, hnoExc, hincr, hdecr, hpart⟩ := hGood
  obtain ⟨hcslLo, hcslHi, hmEq⟩ := hdecr hlo
  have hassoc : st.csl - (n - 1) = st.csl - n + 1 := by ring
  refine ⟨?_, ?_, ?_⟩
  · -- A: nothing remains below the cursor
    intro hm0
    have hcsl0 : st.csl = cfg.minY - 1 := by omega
    by_cases hub : cfg.lib = 1 ∧ 1 ≤ n
    · -- one line per buffer and a nonzero request: the initial task itself
      -- gathers the out-of-window scanline minY - 1
      obtain ⟨hlib1, hn1⟩ := hub
      have hch1 : chunkOf cfg st.csl = -1 := by
        rw [hcsl0]; exact chunkOf_minY_sub_one_of_one cfg hlib1
      have hsp1 : spanMin cfg (chunkOf cfg st.csl) = cfg.minY - 1 := by
        rw [hch1, spanMin]; omega
      have hsp2 : spanMax cfg (chunkOf cfg st.csl) = cfg.minY - 1 := by
        rw [spanMax, hsp1]; omega
      have hslot : st.buf.partiallyFull = false ∨
          (st.buf.minY = spanMin cfg (chunkOf cfg st.csl) ∧
           st.buf.maxY = spanMax cfg (chunkOf cfg st.csl)) := by
        cases hb : st.buf.partiallyFull
        · exact Or.inl rfl
        · exact Or.inr ⟨(hpart hb).1, (hpart hb).2.1⟩
      have hsubnone : submitTask O cfg st (chunkOf cfg st.csl)
          (st.csl - n + 1) st.csl = none := by
        refine submitTask_none_of_oob O cfg st (chunkOf cfg st.csl)
          (st.csl - n + 1) st.csl hslot ?_ ?_
        · rw [hsp1, hsp2, hcsl0]; omega
        · left; rw [hsp1, hcsl0]; omega
      have hw : writePixels O cfg st n = (st, some Err.undefinedBehavior) := by
        simp only [writePixels, if_neg hsl, hlo, reduceCtorEq, reduceIte,
          numTasks_one, Int.toNat_one, submitSeq_one, hsubnone]
      refine ⟨st, Err.undefinedBehavior, hw, Or.inr rfl, ?_, rfl, rfl, rfl,
        rfl, rfl⟩
      intro hcon
      exfalso
      rcases hcon with h | h <;> omega
    · -- otherwise the initial task leaves the buffer and the drain loop's
      -- guard throws the range error at once
      have hslot : st.buf.partiallyFull = false ∨
          (st.buf.minY = spanMin cfg (chunkOf cfg st.csl) ∧
           st.buf.maxY = spanMax cfg (chunkOf cfg st.csl)) := by
        cases hb : st.buf.partiallyFull
        · exact Or.inl rfl
        · exact Or.inr ⟨(hpart hb).1, (hpart hb).2.1⟩
      obtain ⟨lb2, hsub, hl2m, hl2M, hl2sm, hl2sM, hl2e, hl2x, hl2p⟩ :
          ∃ lb2, submitTask O cfg st (chunkOf cfg st.csl) (st.csl - n + 1)
              st.csl = some { st with buf := lb2 } ∧
            lb2.minY = spanMin cfg (chunkOf cfg st.csl) ∧
            lb2.maxY = spanMax cfg (chunkOf cfg st.csl) ∧
            lb2.scanLineMin = max (spanMin cfg (chunkOf cfg st.csl))
              (st.csl - n + 1) ∧
            lb2.scanLineMax = min (spanMax cfg (chunkOf cfg st.csl)) st.csl ∧
            lb2.hasException = st.buf.hasException ∧
            lb2.exception = st.buf.exception ∧
            (lb2.partiallyFull = true ↔
              spanMin cfg (chunkOf cfg st.csl) < st.csl - n + 1) := by
        by_cases hlib2 : 2 ≤ cfg.lib
        · -- at least two lines per buffer: the cursor's chunk is chunk 0
          have hch0 : chunkOf cfg st.csl = 0 := by
            rw [hcsl0]; exact chunkOf_minY_sub_one_of_two_le cfg hlib2
          have hsp1 : spanMin cfg (chunkOf cfg st.csl) = cfg.minY := by
            rw [hch0, spanMin]; omega
          have hsp2 : spanMax cfg (chunkOf cfg st.csl) =
              min (cfg.minY + cfg.lib - 1) cfg.maxY := by
            rw [spanMax, hsp1]
          exact submitTask_decr O cfg st (chunkOf cfg st.csl)
            (st.csl - n + 1) st.csl hff hlo hlib
            (Or.inl (by rw [hsp1]))
            hslot
            (by rw [hsp1, hsp2]; omega)
            (by rw [hsp1, hcsl0]; omega)
            (by rw [hsp2, hcsl0]; omega)
            (by omega)
        · -- one line per buffer and an empty request: the clamped range is
          -- empty
          have hlib1 : cfg.lib = 1 := by omega
          have hn0 : n = 0 := by
            by_contra h
            exact hub ⟨hlib1, by omega⟩
          have hch1 : chunkOf cfg st.csl = -1 := by
            rw [hcsl0]; exact chunkOf_minY_sub_one_of_one cfg hlib1
          have hsp1 : spanMin cfg (chunkOf cfg st.csl) = cfg.minY - 1 := by
            rw [hch1, spanMin]; omega
          have hsp2 : spanMax cfg (chunkOf cfg st.csl) = cfg.minY - 1 := by
            rw [spanMax, hsp1]; omega
          exact submitTask_decr O cfg st (chunkOf cfg st.csl)
            (st.csl - n + 1) st.csl hff hlo hlib
            (Or.inr (by rw [hsp1, hsp2, hcsl0, hn0]; omega))
            hslot
            (by rw [hsp1, hsp2]; omega)
            (by rw [hsp1, hcsl0]; omega)
            (by rw [hsp2, hcsl0, hn0]; omega)
            (by omega)
      have hw : writePixels O cfg st n =
          finishWrite (drain O cfg
            ((chunkOf cfg (st.csl - (n - 1)) - 1 - chunkOf cfg st.csl).natAbs + 1)
            { st with buf := lb2 } (chunkOf cfg st.csl) (chunkOf cfg st.csl - 1)
            (chunkOf cfg (st.csl - (n - 1)) - 1) (-1) (st.csl - n + 1)
            st.csl) := by
        simp only [writePixels, if_neg hsl, hlo, reduceCtorEq, reduceIte,
          numTasks_one, Int.toNat_one, submitSeq_one, hsub]
      rw [hassoc] at hw
      have hinv : DrainInvD cfg { st with buf := lb2 } (chunkOf cfg st.csl)
          (st.csl - n + 1) st.csl := by
        refine ⟨hlib, hwnd, ?_, ?_, ?_, ?_, ?_, ?_, ?_⟩
        · show cfg.minY - 1 ≤ st.csl; omega
        · show st.csl ≤ cfg.maxY; omega
        · show st.missing = st.csl - cfg.minY + 1; omega
        · show lb2.hasException = false; rw [hl2e]; exact hnoExc
        · show st.csl - n + 1 ≤ st.csl + 1; omega
        · show st.csl ≤ st.csl; omega
        · intro hc
          exfalso
          show False
          have : cfg.minY ≤ st.csl := hc
          omega
      have hfuel : (chunkOf cfg st.csl - (chunkOf cfg (st.csl - n + 1) - 1)).toNat
          + 1 ≤ (chunkOf cfg (st.csl - n + 1) - 1 - chunkOf cfg st.csl).natAbs
          + 1 := by
        omega
      obtain ⟨hA, _, _⟩ := drainD_spec O cfg hff hlo _ { st with buf := lb2 }
        (chunkOf cfg st.csl) (st.csl - n + 1) st.csl hinv hfuel
      have hdr := hA (show st.csl = cfg.minY - 1 from hcsl0)
      refine ⟨{ st with buf := lb2 }, Err.rangeExceeded,
        by rw [hw, hdr]; rfl, Or.inl rfl, fun _ => rfl, rfl, rfl, rfl, rfl, rfl⟩
  · -- B: the requested range stays inside (or just grazes) the window
    intro hmpos hlast
    rw [hassoc] at hlast
    have hcslLo' : cfg.minY ≤ st.csl := by omega
    have hf0 : 0 ≤ chunkOf cfg st.csl := chunkOf_nonneg cfg st.csl hlib hcslLo'
    have hfm : spanMin cfg (chunkOf cfg st.csl) ≤ st.csl :=
      spanMin_chunkOf_le cfg st.csl hlib hcslLo'
    have hfl : st.csl < spanMin cfg (chunkOf cfg st.csl) + cfg.lib :=
      lt_spanMin_chunkOf_succ cfg st.csl hlib hcslLo'
    have hfMge : st.csl ≤ spanMax cfg (chunkOf cfg st.csl) := by
      rw [spanMax]; omega
    have hslot : st.buf.partiallyFull = false ∨
        (st.buf.minY = spanMin cfg (chunkOf cfg st.csl) ∧
         st.buf.maxY = spanMax cfg (chunkOf cfg st.csl)) := by
      cases hb : st.buf.partiallyFull
      · exact Or.inl rfl
      · exact Or.inr ⟨(hpart hb).1, (hpart hb).2.1⟩
    have hmY : cfg.minY ≤ spanMin cfg (chunkOf cfg st.csl) := by
      have hmul : 0 ≤ chunkOf cfg st.csl * cfg.lib :=
        mul_nonneg hf0 (by omega)
      rw [spanMin]; omega
    obtain ⟨lb2, hsub, hl2m, hl2M, hl2sm, hl2sM, hl2e, hl2x, hl2p⟩ :=
      submitTask_decr O cfg st (chunkOf cfg st.csl) (st.csl - n + 1) st.csl
        hff hlo hlib (Or.inl hmY) hslot
        (by omega) (by omega) (by omega) (by omega)
    have hw : writePixels O cfg st n =
        finishWrite (drain O cfg
          ((chunkOf cfg (st.csl - (n - 1)) - 1 - chunkOf cfg st.csl).natAbs + 1)
          { st with buf := lb2 } (chunkOf cfg st.csl) (chunkOf cfg st.csl - 1)
          (chunkOf cfg (st.csl - (n - 1)) - 1) (-1) (st.csl - n + 1)
          st.csl) := by
      simp only [writePixels, if_neg hsl, hlo, reduceCtorEq, reduceIte,
        numTasks_one, Int.toNat_one, submitSeq_one, hsub]
    rw [hassoc] at hw
    have hinv : DrainInvD cfg { st with buf := lb2 } (chunkOf cfg st.csl)
        (st.csl - n + 1) st.csl := by
      refine ⟨hlib, hwnd, ?_, ?_, ?_, ?_, ?_, ?_, ?_⟩
      · show cfg.minY - 1 ≤ st.csl; omega
      · show st.csl ≤ cfg.maxY; omega
      · show st.missing = st.csl - cfg.minY + 1; omega
      · show lb2.hasException = false; rw [hl2e]; exact hnoExc
      · show st.csl - n + 1 ≤ st.csl + 1; omega
      · show st.csl ≤ st.csl; omega
      · intro _
        refine ⟨rfl, hl2m, hl2M, ?_, hl2sm, hl2p⟩
        show lb2.scanLineMax = st.csl
        rw [hl2sM]
        omega
    have hfuel : (chunkOf cfg st.csl - (chunkOf cfg (st.csl - n + 1) - 1)).toNat
        + 1 ≤ (chunkOf cfg (st.csl - n + 1) - 1 - chunkOf cfg st.csl).natAbs
        + 1 := by
      omega
    obtain ⟨_, hB, _⟩ := drainD_spec O cfg hff hlo _ { st with buf := lb2 }
      (chunkOf cfg st.csl) (st.csl - n + 1) st.csl hinv hfuel
    have hcm : cfg.minY ≤ ({ st with buf := lb2 } : Mut).csl := by
      show cfg.minY ≤ st.csl
      omega
    obtain ⟨st2, ex, hdr, hex, hcsl2, hm2, hsl2, hexc2, hpart2, hsame⟩ :=
      hB hcm hlast
    have hfin : finishWrite (st2, ex) = (st2, none) := by
      rcases hex with h | h
      · rw [h]; rfl
      · rw [h]
        show exceptionScan st2 = (st2, none)
        exact exceptionScan_clean st2 hexc2
    refine ⟨st2, by rw [hw, hdr, hfin], ?_, hm2, hsl2, ?_, ?_⟩
    · rw [hcsl2]
      omega
    · -- Good for the final state
      refine ⟨hlib, hwnd, hexc2, ?_, ?_, hpart2⟩
      · intro hi
        rw [hlo] at hi
        exact absurd hi (by simp)
      · intro _
        refine ⟨?_, ?_, hm2⟩ <;> rw [hcsl2] <;> omega
    · intro hn0
      have hsm0 : ({ st with buf := lb2 } : Mut).buf.minY < st.csl - n + 1 := by
        show lb2.minY < st.csl - n + 1
        rw [hl2m, hn0]
        omega
      obtain ⟨hstr, hoff, hcp, _⟩ := hsame hsm0
      refine ⟨?_, ?_, hstr, hoff, hcp⟩
      · rw [hcsl2, hn0]
        omega
      · rw [hm2, hcsl2, hn0]
        omega
  · -- C: the requested range descends a full chunk below the window
    intro hmpos hlast
    rw [hassoc] at hlast
    have hcslLo' : cfg.minY ≤ st.csl := by omega
    have hf0 : 0 ≤ chunkOf cfg st.csl := chunkOf_nonneg cfg st.csl hlib hcslLo'
    have hfm : spanMin cfg (chunkOf cfg st.csl) ≤ st.csl :=
      spanMin_chunkOf_le cfg st.csl hlib hcslLo'
    have hfl : st.csl < spanMin cfg (chunkOf cfg st.csl) + cfg.lib :=
      lt_spanMin_chunkOf_succ cfg st.csl hlib hcslLo'
    have hfMge : st.csl ≤ spanMax cfg (chunkOf cfg st.csl) := by
      rw [spanMax]; omega
    have hslot : st.buf.partiallyFull = false ∨
        (st.buf.minY = spanMin cfg (chunkOf cfg st.csl) ∧
         st.buf.maxY = spanMax cfg (chunkOf cfg st.csl)) := by
      cases hb : st.buf.partiallyFull
      · exact Or.inl rfl
      · exact Or.inr ⟨(hpart hb).1, (hpart hb).2.1⟩
    have hmY : cfg.minY ≤ spanMin cfg (chunkOf cfg st.csl) := by
      have hmul : 0 ≤ chunkOf cfg st.csl * cfg.lib :=
        mul_nonneg hf0 (by omega)
      rw [spanMin]; omega
    obtain ⟨lb2, hsub, hl2m, hl2M, hl2sm, hl2sM, hl2e, hl2x, hl2p⟩ :=
      submitTask_decr O cfg st (chunkOf cfg st.csl) (st.csl - n + 1) st.csl
        hff hlo hlib (Or.inl hmY) hslot
        (by omega) (by omega) (by omega) (by omega)
    have hw : writePixels O cfg st n =
        finishWrite (drain O cfg
          ((chunkOf cfg (st.csl - (n - 1)) - 1 - chunkOf cfg st.csl).natAbs + 1)
          { st with buf := lb2 } (chunkOf cfg st.csl) (chunkOf cfg st.csl - 1)
          (chunkOf cfg (st.csl - (n - 1)) - 1) (-1) (st.csl - n + 1)
          st.csl) := by
      simp only [writePixels, if_neg hsl, hlo, reduceCtorEq, reduceIte,
        numTasks_one, Int.toNat_one, submitSeq_one, hsub]
    rw [hassoc] at hw
    have hinv : DrainInvD cfg { st with buf := lb2 } (chunkOf cfg st.csl)
        (st.csl - n + 1) st.csl := by
      refine ⟨hlib, hwnd, ?_, ?_, ?_, ?_, ?_, ?_, ?_⟩
      · show cfg.minY - 1 ≤ st.csl; omega
      · show st.csl ≤ cfg.maxY; omega
      · show st.missing = st.csl - cfg.minY + 1; omega
      · show lb2.hasException = false; rw [hl2e]; exact hnoExc
      · show st.csl - n + 1 ≤ st.csl + 1; omega
      · show st.csl ≤ st.csl; omega
      · intro _
        refine ⟨rfl, hl2m, hl2M, ?_, hl2sm, hl2p⟩
        show lb2.scanLineMax = st.csl
        rw [hl2sM]
        omega
    have hfuel : (chunkOf cfg st.csl - (chunkOf cfg (st.csl - n + 1) - 1)).toNat
        + 1 ≤ (chunkOf cfg (st.csl - n + 1) - 1 - chunkOf cfg st.csl).natAbs
        + 1 := by
      omega
    obtain ⟨_, _, hC⟩ := drainD_spec O cfg hff hlo _ { st with buf := lb2 }
      (chunkOf cfg st.csl) (st.csl - n + 1) st.csl hinv hfuel
    have hcm : cfg.minY ≤ ({ st with buf := lb2 } : Mut).csl := by
      show cfg.minY ≤ st.csl
      omega
    obtain ⟨st2, hdr, hgrow, hcsl2, hm2⟩ := hC hcm hlast
    exact ⟨st2, by rw [hw, hdr]; rfl, hgrow, hcsl2, hm2⟩

/-- Unfolding one iteration of the copy loop. -/
theorem copyPixelsLoop_step (O : TaskOracle) (cfg : Cfg) (fuel : Nat) (st : Mut)
    (hpos : st.missing > 0) :
    copyPixelsLoop O cfg (Nat.succ fuel) st =
      copyPixelsLoop O cfg fuel (copyStep O cfg st) := by
  simp only [copyPixelsLoop, if_pos hpos, copyStep]

/-- `copyStep` bookkeeping. -/
theorem copyStep_fields (O : TaskOracle) (cfg : Cfg) (st : Mut) :
    (copyStep O cfg st).missing = st.missing - cfg.lib ∧
    (copyStep O cfg st).slices = st.slices := by
  exact ⟨rfl, rfl⟩

/-- The copy loop always terminates without error, ending with a remaining
count in `(-linesInBuffer, 0]` that differs from the starting count by a
multiple of `linesInBuffer`: the loop decrements by a full buffer stride per
iteration without clamping at zero. -/
theorem copyPixelsLoop_spec (O : TaskOracle) (cfg : Cfg) (hlib : 1 ≤ cfg.lib) :
    ∀ (fuel : Nat) (st : Mut), st.missing ≤ (fuel : Int) →
    -cfg.lib < st.missing →
    ∃ st2, copyPixelsLoop O cfg fuel st = (st2, none) ∧
      st2.missing ≤ 0 ∧ -cfg.lib < st2.missing ∧
      cfg.lib ∣ (st.missing - st2.missing) ∧
      st2.slices = st.slices := by
  intro fuel
  induction fuel with
  | zero =>
    intro st hfuel hneg
    refine ⟨st, ?_, by omega, hneg, ⟨0, by ring⟩, rfl⟩
    rw [copyPixelsLoop, if_neg (by omega : ¬ st.missing > 0)]
  | succ fuel ih =>
    intro st hfuel hneg
    by_cases hpos : st.missing > 0
    · rw [copyPixelsLoop_step O cfg fuel st hpos]
      obtain ⟨hmiss, hslices⟩ := copyStep_fields O cfg st
      obtain ⟨st2, hrun, hle, hgt, hdvd, hsl⟩ := ih (copyStep O cfg st)
        (by omega) (by omega)
      refine ⟨st2, hrun, hle, hgt, ?_, hsl.trans hslices⟩
      have hd1 : cfg.lib ∣ (st.missing - (copyStep O cfg st).missing) :=
        ⟨1, by rw [hmiss]; ring⟩
      have h3 : st.missing - st2.missing =
          (st.missing - (copyStep O cfg st).missing) +
          ((copyStep O cfg st).missing - st2.missing) := by ring
      rw [h3]
      exact dvd_add hd1 hdvd
    · refine ⟨st, ?_, by omega, hneg, ⟨0, by ring⟩, rfl⟩
      rw [copyPixelsLoop, if_neg hpos]

/-- C1 (amended).  Across successful failure-free `writePixels` calls the
reachable-state invariant is preserved and `missingScanLines` stays
nonnegative, reaching zero exactly when the cursor has passed the whole data
window.  A successful `copyPixels`, however, decrements the counter by a full
buffer stride per chunk without clamping, so it ends at
`height - linesInBuffer * ceil(height / linesInBuffer)`: zero exactly when
`linesInBuffer` divides the window height, and strictly negative otherwise. -/
theorem C1_amended (O : TaskOracle) (cfg : Cfg) (hff : FailFree O)
    (hlib : 1 ≤ cfg.lib) (hwnd : cfg.minY ≤ cfg.maxY) :
    (∀ st n st2, Good cfg st → 0 ≤ n → ¬ st.slices.length = 0 →
      writePixels O cfg st n = (st2, none) →
      Good cfg st2 ∧ 0 ≤ st2.missing ∧
      (cfg.lineOrder = LineOrder.INCREASING_Y →
        (st2.missing = 0 ↔ st2.csl = cfg.maxY + 1)) ∧
      (cfg.lineOrder = LineOrder.DECREASING_Y →
        (st2.missing = 0 ↔ st2.csl = cfg.minY - 1))) ∧
    (∀ st inHdr st2, copyPixels O cfg st inHdr = (st2, none) →
      st2.missing ≤ 0 ∧
      (st2.missing = 0 ↔ cfg.lib ∣ (cfg.maxY - cfg.minY + 1))) := by
  constructor
  · intro st n st2 hGood hn hsl hw
    have hG := hGood
    obtain ⟨hlib1, hwnd1, hnoExc, hincr, hdecr, hpartC⟩ := hG
    cases hlo : cfg.lineOrder with
    | INCREASING_Y =>
      obtain ⟨hA, hB, hC⟩ := writePixelsI_spec O cfg st n hff hlo hn hsl hGood
      obtain ⟨hb1, hb2, hb3⟩ := hincr hlo
      by_cases hm0 : st.missing = 0
      · obtain ⟨lb, heq⟩ := hA hm0
        rw [hw] at heq
        simp at heq
      · have hmpos : 0 < st.missing := by omega
        rcases le_or_lt (chunkOf cfg (st.csl + (n - 1))) (chunkOf cfg cfg.maxY)
          with hle | hgt
        · obtain ⟨st2', hw', hcsl2, hm2, hsl2, hGood2, _⟩ := hB hmpos hle
          rw [hw] at hw'
          have hst : st2 = st2' := congrArg Prod.fst hw'
          subst hst
          have hG2 := hGood2
          obtain ⟨_, _, _, hincr2, _, _⟩ := hGood2
          obtain ⟨hc1, hc2, hc3⟩ := hincr2 hlo
          refine ⟨hG2, by omega, fun _ => ?_, fun hd => ?_⟩
          · constructor <;> intro <;> omega
          · exact absurd hd (by simp)
        · obtain ⟨st2', e, hw', _, _, _, _⟩ := hC hmpos hgt
          rw [hw] at hw'
          simp at hw'
    | DECREASING_Y =>
      obtain ⟨hA, hB, hC⟩ := writePixelsD_spec O cfg st n hff hlo hn hsl hGood
      obtain ⟨hb1, hb2, hb3⟩ := hdecr hlo
      by_cases hm0 : st.missing = 0
      · obtain ⟨st2', e, hw', _, _, _, _, _, _, _⟩ := hA hm0
        rw [hw] at hw'
        simp at hw'
      · have hmpos : 0 < st.missing := by omega
        rcases le_or_lt 0 (chunkOf cfg (st.csl - (n - 1))) with hle | hgt
        · obtain ⟨st2', hw', hcsl2, hm2, hsl2, hGood2, _⟩ := hB hmpos hle
          rw [hw] at hw'
          have hst : st2 = st2' := congrArg Prod.fst hw'
          subst hst
          have hG2 := hGood2
          obtain ⟨_, _, _, _, hdecr2, _⟩ := hGood2
          obtain ⟨hc1, hc2, hc3⟩ := hdecr2 hlo
          refine ⟨hG2, by omega, fun hd => ?_, fun _ => ?_⟩
          · exact absurd hd (by simp)
          · constructor <;> intro <;> omega
        · obtain ⟨st2', hw', _, _, _⟩ := hC hmpos hgt
          rw [hw] at hw'
          simp at hw'
  · intro st inHdr st2 hcp
    rw [copyPixels] at hcp
    by_cases h1 : inHdr.tiled
    · rw [if_pos h1] at hcp; simp at hcp
    · rw [if_neg h1] at hcp
      rcases em (cfg.minX = inHdr.minX ∧ cfg.minY = inHdr.minY ∧
          cfg.maxX = inHdr.maxX ∧ cfg.maxY = inHdr.maxY) with h2 | h2
      · rw [if_neg (not_not_intro h2)] at hcp
        rcases em (cfg.lineOrder = inHdr.lineOrder) with h3 | h3
        · rw [if_neg (not_not_intro h3)] at hcp
          rcases em (cfg.compressionKind = inHdr.compressionKind) with h4 | h4
          · rw [if_neg (not_not_intro h4)] at hcp
            rcases em (cfg.channels = inHdr.channels) with h5 | h5
            · rw [if_neg (not_not_intro h5)] at hcp
              rcases em (st.missing = cfg.maxY - cfg.minY + 1) with h6 | h6
              · rw [if_neg (not_not_intro h6)] at hcp
                obtain ⟨st2', hrun, hle, hgt, hdvd, _⟩ :=
                  copyPixelsLoop_spec O cfg hlib st.missing.toNat st
                    (by omega) (by omega)
                rw [hcp] at hrun
                have hst : st2 = st2' := congrArg Prod.fst hrun
                subst hst
                refine ⟨hle, ?_, ?_⟩
                · intro hz
                  rw [h6, hz, sub_zero] at hdvd
                  exact hdvd
                · intro hH
                  rw [h6] at hdvd
                  have hd2 : cfg.lib ∣ st2.missing := by
                    have h7 : st2.missing = (cfg.maxY - cfg.minY + 1) -
                        ((cfg.maxY - cfg.minY + 1) - st2.missing) := by ring
                    rw [h7]
                    exact dvd_sub hH hdvd
                  obtain ⟨q, hq⟩ := hd2
                  rcases lt_trichotomy q 0 with hqs | hqs | hqs
                  · have hmul : cfg.lib * q ≤ cfg.lib * (-1) :=
                      mul_le_mul_of_nonneg_left (by omega) (by omega)
                    exfalso
                    linarith
                  · rw [hq, hqs, mul_zero]
                  · have hmul : cfg.lib * 1 ≤ cfg.lib * q :=
                      mul_le_mul_of_nonneg_left (by omega) (by omega)
                    exfalso
                    linarith
              · rw [if_pos h6] at hcp; simp at hcp
            · rw [if_pos h5] at hcp; simp at hcp
          · rw [if_pos h4] at hcp; simp at hcp
        · rw [if_pos h3] at hcp; simp at hcp
      · rw [if_pos h2] at hcp; simp at hcp

/-- Concrete instance of `C1_amended`: a 6-scanline window with 4-line
buffers; one successful 2-line write keeps the invariant, while a successful
whole-file copy ends with a negative remaining count. -/
theorem C1_amended_witness :
    (Good cfgH6 (writePixels oracleNoFail cfgH6 stH6 2).1 ∧
     0 ≤ (writePixels oracleNoFail cfgH6 stH6 2).1.missing) ∧
    ((copyPixels oracleNoFail cfgH6 stH6 inHdrH6).1.missing ≤ 0 ∧
     ¬ (copyPixels oracleNoFail cfgH6 stH6 inHdrH6).1.missing = 0) := by
  have h := C1_amended oracleNoFail cfgH6 (fun k => rfl) (by decide) (by decide)
  have h1 := h.1 stH6 2 (writePixels oracleNoFail cfgH6 stH6 2).1
    (by decide) (by decide) (by decide) rfl
  have h2 := h.2 stH6 inHdrH6 (copyPixels oracleNoFail cfgH6 stH6 inHdrH6).1 rfl
  refine ⟨⟨h1.1, h1.2.1⟩, h2.1, ?_⟩
  intro hz
  have hd := h2.2.mp hz
  obtain ⟨q, hq⟩ := hd
  simp only [cfgH6] at hq
  omega

/-- C2 (amended).  In either line order, a failure-free `writePixels(n)` with
`n` greater than the remaining scanlines does not necessarily fail: when the
overshoot stays within the file-order-final chunk of the window the call
succeeds and simply completes the file.  When the request's final chunk
passes beyond the window's final chunk the call does throw — the range
error, or out-of-window undefined behavior — but only after appending the
remaining chunk records to the stream; the error is synchronous but not
prior to the writes.  Only a request against a fully-written file
(`missingScanLines = 0`) throws before any bytes are written. -/
theorem C2_amended (O : TaskOracle) (cfg : Cfg) (st : Mut) (n : Int)
    (hff : FailFree O) (hn : 0 ≤ n) (hsl : ¬ st.slices.length = 0)
    (hGood : Good cfg st) (hover : st.missing < n) :
    (st.missing = 0 →
      ∃ st2 e, writePixels O cfg st n = (st2, some e) ∧
        st2.csl = st.csl ∧ st2.missing = st.missing ∧
        st2.stream = st.stream ∧ st2.lineOffsets = st.lineOffsets ∧
        (cfg.lineOrder = LineOrder.INCREASING_Y ∨ 2 ≤ cfg.lib →
          e = Err.rangeExceeded)) ∧
    (cfg.lineOrder = LineOrder.INCREASING_Y → 0 < st.missing →
      chunkOf cfg (st.csl + (n - 1)) ≤ chunkOf cfg cfg.maxY →
      ∃ st2, writePixels O cfg st n = (st2, none) ∧
        st2.csl = cfg.maxY + 1 ∧ st2.missing = 0) ∧
    (cfg.lineOrder = LineOrder.DECREASING_Y → 0 < st.missing →
      0 ≤ chunkOf cfg (st.csl - (n - 1)) →
      ∃ st2, writePixels O cfg st n = (st2, none) ∧
        st2.csl = cfg.minY - 1 ∧ st2.missing = 0) ∧
    (cfg.lineOrder = LineOrder.INCREASING_Y → 0 < st.missing →
      chunkOf cfg cfg.maxY < chunkOf cfg (st.csl + (n - 1)) →
      ∃ st2 e, writePixels O cfg st n = (st2, some e) ∧
        (e = Err.rangeExceeded ∨ e = Err.undefinedBehavior) ∧
        st.stream.length < st2.stream.length) ∧
    (cfg.lineOrder = LineOrder.DECREASING_Y → 0 < st.missing →
      chunkOf cfg (st.csl - (n - 1)) < 0 →
      ∃ st2, writePixels O cfg st n = (st2, some Err.undefinedBehavior) ∧
        st.stream.length < st2.stream.length) := by
  have hG := hGood
  obtain ⟨hlib1, hwnd1, hnoExc, hincr, hdecr, hpartC⟩ := hG
  cases hlo : cfg.lineOrder with
  | INCREASING_Y =>
    obtain ⟨hA, hB, hC⟩ := writePixelsI_spec O cfg st n hff hlo hn hsl hGood
    obtain ⟨hb1, hb2, hb3⟩ := hincr hlo
    refine ⟨?_, ?_, fun hd => absurd hd (by simp), ?_,
      fun hd => absurd hd (by simp)⟩
    · intro hm0
      obtain ⟨lb, hw⟩ := hA hm0
      exact ⟨{ st with buf := lb }, Err.rangeExceeded, hw, rfl, rfl, rfl, rfl,
        fun _ => rfl⟩
    · intro _ hm hle
      obtain ⟨st2, hw, hcsl2, hm2, _, _, _⟩ := hB hm hle
      refine ⟨st2, hw, ?_, ?_⟩
      · rw [hcsl2]; omega
      · rw [hm2, hcsl2]; omega
    · intro _ hm hgt
      obtain ⟨st2, e, hw, he, hgrow, _, _⟩ := hC hm hgt
      exact ⟨st2, e, hw, he, hgrow⟩
  | DECREASING_Y =>
    obtain ⟨hA, hB, hC⟩ := writePixelsD_spec O cfg st n hff hlo hn hsl hGood
    obtain ⟨hb1, hb2, hb3⟩ := hdecr hlo
    refine ⟨?_, fun hd => absurd hd (by simp), ?_,
      fun hd => absurd hd (by simp), ?_⟩
    · intro hm0
      obtain ⟨st2, e, hw, _, hrefine, hc2, hm2, hstr2, hoff2, _⟩ := hA hm0
      refine ⟨st2, e, hw, hc2, hm2, hstr2, hoff2, ?_⟩
      intro h
      rcases h with h | h
      · exact absurd h (by simp)
      · exact hrefine (Or.inl h)
    · intro _ hm hle
      obtain ⟨st2, hw, hcsl2, hm2, _, _, _⟩ := hB hm hle
      refine ⟨st2, hw, ?_, ?_⟩
      · rw [hcsl2]; omega
      · rw [hm2, hcsl2]; omega
    · intro _ hm hgt
      obtain ⟨st2, hw, hgrow, _, _⟩ := hC hm hgt
      exact ⟨st2, hw, hgrow⟩

/-- Concrete instance of `C2_amended`: on a fresh 6-scanline file with 4-line
buffers, requesting 7 scanlines — one more than remain — succeeds, in
increasing and in decreasing line order alike. -/
theorem C2_amended_witness :
    (∃ st2, writePixels oracleNoFail cfgH6 stH6 7 = (st2, none) ∧
      st2.csl = cfgH6.maxY + 1 ∧ st2.missing = 0) ∧
    (∃ st2, writePixels oracleNoFail cfgH6D stH6D 7 = (st2, none) ∧
      st2.csl = cfgH6D.minY - 1 ∧ st2.missing = 0) := by
  constructor
  · exact (C2_amended oracleNoFail cfgH6 stH6 7 (fun k => rfl) (by decide)
      (by decide) (by decide) (by decide)).2.1 rfl (by decide) (by decide)
  · exact (C2_amended oracleNoFail cfgH6D stH6D 7 (fun k => rfl) (by decide)
      (by decide) (by decide) (by decide)).2.2.1 rfl (by decide) (by decide)

/-- C3 (amended).  `writePixels(0)` is an error-free observable no-op only in
reachable states where a slice table is bound and scanlines remain.  With no
bound slice table it throws the missing-frame-buffer error, and once
`missingScanLines` is zero it throws the range error (leaving the stream and
offset table untouched in both cases). -/
theorem C3_amended (O : TaskOracle) (cfg : Cfg) (st : Mut)
    (hff : FailFree O) (hGood : Good cfg st) :
    (st.slices.length = 0 →
      writePixels O cfg st 0 = (st, some Err.noFrameBuffer)) ∧
    (¬ st.slices.length = 0 → 0 < st.missing →
      ∃ st2, writePixels O cfg st 0 = (st2, none) ∧
        st2.csl = st.csl ∧ st2.missing = st.missing ∧
        st2.stream = st.stream ∧ st2.lineOffsets = st.lineOffsets ∧
        st2.slices = st.slices ∧ Good cfg st2) ∧
    (¬ st.slices.length = 0 → st.missing = 0 →
      ∃ st2, writePixels O cfg st 0 = (st2, some Err.rangeExceeded) ∧
        st2.csl = st.csl ∧ st2.missing = st.missing ∧
        st2.stream = st.stream ∧ st2.lineOffsets = st.lineOffsets) := by
  have hG := hGood
  obtain ⟨hlib1, hwnd1, hnoExc, hincr, hdecr, hpartC⟩ := hG
  refine ⟨?_, ?_, ?_⟩
  · intro h
    rw [writePixels, if_pos h]
  · intro hsl hmpos
    cases hlo : cfg.lineOrder with
    | INCREASING_Y =>
      obtain ⟨_, hB, _⟩ := writePixelsI_spec O cfg st 0 hff hlo (by omega)
        hsl hGood
      obtain ⟨hb1, hb2, hb3⟩ := hincr hlo
      have harg : st.csl + (0 - 1) = st.csl - 1 := by ring
      have hle : chunkOf cfg (st.csl + (0 - 1)) ≤ chunkOf cfg cfg.maxY := by
        rw [harg]
        rcases le_or_lt cfg.minY (st.csl - 1) with hge | hlt
        · exact chunkOf_mono cfg (st.csl - 1) cfg.maxY hlib1 hge (by omega)
        · have h1 := chunkOf_nonpos_of_lt cfg (st.csl - 1) hlib1 hlt
          have h2 := chunkOf_nonneg cfg cfg.maxY hlib1 (by omega)
          omega
      obtain ⟨st2, hw, hcsl2, hm2, hsl2, hGood2, hzero⟩ := hB hmpos hle
      obtain ⟨hz1, hz2, hz3, hz4, _⟩ := hzero rfl
      exact ⟨st2, hw, hz1, hz2, hz3, hz4, hsl2, hGood2⟩
    | DECREASING_Y =>
      obtain ⟨_, hB, _⟩ := writePixelsD_spec O cfg st 0 hff hlo (by omega)
        hsl hGood
      obtain ⟨hb1, hb2, hb3⟩ := hdecr hlo
      have harg : st.csl - (0 - 1) = st.csl + 1 := by ring
      have hle : 0 ≤ chunkOf cfg (st.csl - (0 - 1)) := by
        rw [harg]
        exact chunkOf_nonneg cfg (st.csl + 1) hlib1 (by omega)
      obtain ⟨st2, hw, hcsl2, hm2, hsl2, hGood2, hzero⟩ := hB hmpos hle
      obtain ⟨hz1, hz2, hz3, hz4, _⟩ := hzero rfl
      exact ⟨st2, hw, hz1, hz2, hz3, hz4, hsl2, hGood2⟩
  · intro hsl hm0
    cases hlo : cfg.lineOrder with
    | INCREASING_Y =>
      obtain ⟨hA, _, _⟩ := writePixelsI_spec O cfg st 0 hff hlo (by omega)
        hsl hGood
      obtain ⟨lb, hw⟩ := hA hm0
      exact ⟨{ st with buf := lb }, hw, rfl, rfl, rfl, rfl⟩
    | DECREASING_Y =>
      obtain ⟨hA, _, _⟩ := writePixelsD_spec O cfg st 0 hff hlo (by omega)
        hsl hGood
      obtain ⟨st2, e, hw, _, hrange, hc2, hm2, hstr2, hoff2, _⟩ := hA hm0
      rw [hrange (Or.inr rfl)] at hw
      exact ⟨st2, hw, hc2, by rw [hm2, hm0], hstr2, hoff2⟩

/-- Concrete instance of `C3_amended`: on a fresh 6-scanline file,
`writePixels(0)` succeeds and observably changes nothing. -/
theorem C3_amended_witness :
    ∃ st2, writePixels oracleNoFail cfgH6 stH6 0 = (st2, none) ∧
      st2.csl = stH6.csl ∧ st2.missing = stH6.missing ∧
      st2.stream = stH6.stream ∧ st2.lineOffsets = stH6.lineOffsets ∧
      st2.slices = stH6.slices ∧ Good cfgH6 st2 :=
  (C3_amended oracleNoFail cfgH6 stH6 (fun k => rfl) (by decide)).2.1
    (by decide) (by decide)

/-- C4 (amended).  A worker task's failure is contained in its slot and kept
sticky (first failure wins): storing onto a slot that already holds a failure
is a no-op, and a task that runs over a failed slot preserves the recorded
failure unchanged.  The flag-clearing scan that re-raises the first recorded
failure as an I/O error is not run unconditionally after the join scope: it
runs only when the drain loop finishes its chunk range (`done`), and is
skipped entirely when the drain loop returns early on a partially full
buffer, which is how a failed call can appear to succeed and surface its
error on a later call. -/
theorem C4_amended (O : TaskOracle) (cfg : Cfg) :
    (∀ lb e, lb.hasException = true → storeException lb e = lb) ∧
    (∀ lb e, lb.hasException = false →
      storeException lb e = { lb with hasException := true, exception := e }) ∧
    (∀ number lb lb2, execTask O cfg number lb = some lb2 →
      lb.hasException = true →
      lb2.hasException = true ∧ lb2.exception = lb.exception) ∧
    (∀ st, st.buf.hasException = true →
      exceptionScan st =
        ({ st with buf := { st.buf with hasException := false } },
          some (Err.ioError st.buf.exception))) ∧
    (∀ st, st.buf.hasException = false → exceptionScan st = (st, none)) ∧
    (∀ st, finishWrite (st, DrainExit.partialReturn) = (st, none)) ∧
    (∀ st, finishWrite (st, DrainExit.done) = exceptionScan st) := by
  refine ⟨?_, ?_, ?_, ?_, ?_, fun st => rfl, fun st => rfl⟩
  · intro lb e h
    rw [storeException, if_pos h]
  · intro lb e h
    rw [storeException, if_neg (by rw [h]; simp)]
  · intro number lb lb2 heq hexc
    have hstore : ∀ e, storeException lb e = lb := by
      intro e
      rw [storeException, if_pos hexc]
    cases hlo : cfg.lineOrder
    all_goals
      simp only [execTask, hlo, reduceCtorEq, reduceIte] at heq
      split at heq
      · exact absurd heq (by simp)
      · split at heq
        · exact absurd heq (by simp)
        · split at heq
          · split at heq
            · split at heq
              · rw [hstore, Option.some_inj] at heq
                rw [← heq]
                exact ⟨hexc, rfl⟩
              · rw [Option.some_inj] at heq
                rw [← heq]
                exact ⟨hexc, rfl⟩
            · rw [Option.some_inj] at heq
              rw [← heq]
              exact ⟨hexc, rfl⟩
          · split at heq
            · rw [hstore, Option.some_inj] at heq
              rw [← heq]
              exact ⟨hexc, rfl⟩
            · rw [Option.some_inj] at heq
              rw [← heq]
              exact ⟨hexc, rfl⟩
  · intro st h
    simp only [exceptionScan, h, reduceIte]
  · exact fun st h => exceptionScan_clean st h

/-- Concrete instance of `C4_amended`: a second failure never overwrites the
first, and a partial-return drain skips the exception scan. -/
theorem C4_amended_witness :
    storeException { stH6.buf with hasException := true, exception := "a" } "b" =
      { stH6.buf with hasException := true, exception := "a" } ∧
    finishWrite (stH6, DrainExit.partialReturn) = (stH6, none) ∧
    finishWrite (stH6, DrainExit.done) = exceptionScan stH6 := by
  have h := C4_amended oracleNoFail cfgH6
  exact ⟨h.1 { stH6.buf with hasException := true, exception := "a" } "b" rfl,
    h.2.2.2.2.2.1 stH6, h.2.2.2.2.2.2 stH6⟩

end ImfOut
